import Mathlib

/-!
Shallow embedding of the adaptive two-tier LRU block cache
(`cache/lru_cache.cc`): the per-shard primary hash table, the LRU list with
priority pools, the auxiliary hot-index ("CBHT") with its per-thread
reference-tally pool, the shard operations Insert/Lookup/Release/Erase and
the adaptive-controller decision step, plus the `NewLRUCache` factory
validation.  Machine pointers become dense entry ids into an association-list
heap; unsigned arithmetic is `Nat` (the source's debug assertions guard the
subtractions, stated here as hypotheses where they matter); C `int` arithmetic
is `Int` with `Int.tdiv` for `/`.
-/

set_option autoImplicit false

namespace BlockCacheOpt

/-- Configuration constants of the cache.  These are compile-time globals in
the source: `CBHTbitlength`, `threadcount`, `CBHTturnoff` (= ACTIVATE_PCTL),
`DCAflush` (= FLUSH_PCTL), `NLIMIT`, `shardnumlimit`, `PADDING` (cacheline
padding factor for the per-shard stat arrays) and `numshardbits`. -/
structure Config where
  CBHTbitlength : Nat
  threadcount : Nat
  CBHTturnoff : Nat
  DCAflush : Nat
  NLIMIT : Nat
  shardnumlimit : Nat
  PADDING : Nat
  numshardbits : Nat
deriving Repr, DecidableEq

/-- Auxiliary-table capacity `size_t{1} << CBHTbitlength`. -/
def auxCap (cfg : Config) : Nat := 2 ^ cfg.CBHTbitlength

/-- Offset of the slot-availability bits inside the flat `DCA_ref_pool`
array: `(size_t{1} << CBHTbitlength) * threadcount`. -/
def availindex (cfg : Config) : Nat := auxCap cfg * cfg.threadcount

/-- One cache entry (the source's `LRUHandle`, declared in the header; every
field use below mirrors an access in `lru_cache.cc`).  `value` is the opaque
value pointer (`none` = null), the Booleans are the `flags` bits plus the
separate `indca` member, `DCAstamp` / `DCAstamp_tc` are the auxiliary stamp
and its precomputed row offset `stamp * threadcount`.  LRU and bucket links
are represented by list membership in the shard state instead of raw
pointers. -/
structure LRUHandle where
  key : Nat
  hash : Nat
  value : Option Nat
  charge : Nat
  refs : Nat
  inCache : Bool
  isHighPri : Bool
  hasHit : Bool
  inHighPriPool : Bool
  secondaryCompat : Bool
  promoted : Bool
  pending : Bool
  incompleteFlag : Bool
  indca : Bool
  DCAstamp : Int
  DCAstamp_tc : Int
deriving Repr, DecidableEq

def defaultHandle : LRUHandle :=
  { key := 0, hash := 0, value := none, charge := 0, refs := 0,
    inCache := false, isHighPri := false, hasHit := false,
    inHighPriPool := false, secondaryCompat := false, promoted := false,
    pending := false, incompleteFlag := false, indca := false,
    DCAstamp := 0, DCAstamp_tc := 0 }

instance : Inhabited LRUHandle := ⟨defaultHandle⟩

/-- Entry identity: pointers become dense ids into a heap, which is a map
from ids to live entries (`none` = unallocated or freed memory). -/
abbrev EntryId := Nat

def Heap : Type := EntryId → Option LRUHandle

def heapGet (h : Heap) (i : EntryId) : Option LRUHandle := h i

def heapGetD (h : Heap) (i : EntryId) : LRUHandle :=
  (heapGet h i).getD defaultHandle

def heapSet (h : Heap) (i : EntryId) (e : LRUHandle) : Heap :=
  fun j => if j = i then some e else h j

/-- Deallocation (`delete[]` of the raw entry memory). -/
def heapErase (h : Heap) (i : EntryId) : Heap :=
  fun j => if j = i then none else h j

def heapEmpty : Heap := fun _ => none

/-- Pointwise update of a flat integer array modelled as a function. -/
def poolBump (pool : Nat → Int) (idx : Nat) (d : Int) : Nat → Int :=
  fun n => if n = idx then pool n + d else pool n

/-- Sum of one stamp's tally row: `Σ_{i < threadcount} pool[stamp_tc + i]`,
the `refstmp` accumulation loop of `CBHTable::Remove`. -/
def tallyRowSum (cfg : Config) (pool : Nat → Int) (stamp_tc : Nat) : Int :=
  ((List.range cfg.threadcount).map (fun i => pool (stamp_tc + i))).sum

/-- State of one shard's auxiliary hot-index (`CBHTable`).  `pool` is the
flat `DCA_ref_pool` array: cell `stamp * threadcount + tid` holds thread
`tid`'s tally for `stamp`, cell `availindex + stamp` holds the stamp's
availability bit.  The bucket chains are flattened into one list of entry
ids: bucketing is by hash top bits and every chain operation filters by the
exact `(hash, key)` pair, so find/unchain behaviour per key is preserved. -/
structure CBHTSt where
  elems : Nat
  chain : List EntryId
  hashkeylist : List (Nat × Nat)
  pool : Nat → Int
  stampincr : Nat

/-- Walk a chain for the first entry with the given `(hash, key)`
(`FindPointer` of either table). -/
def chainFind? (heap : Heap) (chain : List EntryId) (key hash : Nat) : Option EntryId :=
  chain.find? (fun id =>
    match heapGet heap id with
    | some e => e.hash == hash && e.key == key
    | none => false)

/-- Embedding of `CBHTable::Lookup` (src lines 164-175): on a chain hit,
snapshot the entry's stamp; if the snapshot is in range, increment the
caller thread's tally cell for that stamp. -/
def CBHT_Lookup (cfg : Config) (c : CBHTSt) (heap : Heap) (key hash mytid : Nat) :
    Option EntryId × CBHTSt :=
  match chainFind? heap c.chain key hash with
  | none => (none, c)
  | some id =>
    let e := heapGetD heap id
    if -1 < e.DCAstamp ∧ e.DCAstamp < (auxCap cfg : Int) then
      (some id, { c with pool := poolBump c.pool (e.DCAstamp_tc + (mytid : Int)).toNat 1 })
    else (some id, c)

/-- Embedding of `CBHTable::Remove` (src lines 234-271).  Finds the entry; if
its stamp snapshot is in range, sums the tally row into `refstmp`, zeroing
the row cells only when `dontforce` is false; with `dontforce` and
`refstmp ≠ 0` the remove is refused (`nullptr`, nothing changed); otherwise
the entry's `refs` receives `refstmp` clamped at 0, its stamp is reset to
-1, the availability bit is cleared, `indca` is cleared, the entry is
unchained and `elems` decremented.  If the stamp snapshot is out of range
the entry is returned without any modification (the source's sanity-check
branch). -/
def CBHT_Remove (cfg : Config) (c : CBHTSt) (heap : Heap) (key hash : Nat)
    (dontforce : Bool) : Option EntryId × CBHTSt × Heap :=
  match chainFind? heap c.chain key hash with
  | none => (none, c, heap)
  | some id =>
    let e := heapGetD heap id
    let stamptmp := e.DCAstamp
    let stamptmp_tc := e.DCAstamp_tc
    if -1 < stamptmp ∧ stamptmp < (auxCap cfg : Int) then
      let refstmp : Int := tallyRowSum cfg c.pool stamptmp_tc.toNat
      let pool1 : Nat → Int :=
        if dontforce then c.pool
        else fun n =>
          if stamptmp_tc.toNat ≤ n ∧ n < stamptmp_tc.toNat + cfg.threadcount then 0
          else c.pool n
      if dontforce ∧ refstmp ≠ 0 then (none, c, heap)
      else
        let newRefs : Nat :=
          if (e.refs : Int) + refstmp < 0 then 0 else ((e.refs : Int) + refstmp).toNat
        let e1 := { e with refs := newRefs, DCAstamp := -1, indca := false }
        let pool2 : Nat → Int :=
          fun n => if n = availindex cfg + stamptmp.toNat then 0 else pool1 n
        (some id,
         { c with
            pool := pool2
            chain := c.chain.erase id
            elems := c.elems - 1 },
         heapSet heap id e1)
    else (some id, c, heap)

/-- Embedding of `CBHTable::Unref` (src lines 273-280): decrement the caller
thread's tally cell if the stamp snapshot is in range. -/
def CBHT_Unref (cfg : Config) (c : CBHTSt) (e : LRUHandle) (mytid : Nat) : CBHTSt :=
  if -1 < e.DCAstamp ∧ e.DCAstamp < (auxCap cfg : Int) then
    { c with pool := poolBump c.pool (e.DCAstamp_tc + (mytid : Int)).toNat (-1) }
  else c

/-- Embedding of `CBHTable::IsTableFull`: `elems_ >= length / 2` written as
the source's shift test. -/
def CBHT_IsTableFull (cfg : Config) (c : CBHTSt) : Bool :=
  c.elems >>> (cfg.CBHTbitlength - 1) > 0

/-- Embedding of `CBHTable::EvictFIFO` (src lines 292-315), fuelled by the
source's `hardlimit` probe counter: pop the admission queue head, `Lookup`
it (this bumps a tally cell), and attempt a `dontforce` remove; a refused
remove pushes the pair back onto the queue tail; stop after one successful
removal, an empty queue, or `hardlimit` probes. -/
def CBHT_EvictFIFOAux (cfg : Config) (mytid : Nat) :
    Nat → CBHTSt → Heap → Option EntryId × CBHTSt × Heap
  | 0, c, heap => (none, c, heap)
  | hardlimit + 1, c, heap =>
    match c.hashkeylist with
    | [] => (none, c, heap)
    | (k, hs) :: rest =>
      let c1 := { c with hashkeylist := rest }
      match CBHT_Lookup cfg c1 heap k hs mytid with
      | (none, c2) => CBHT_EvictFIFOAux cfg mytid hardlimit c2 heap
      | (some _, c2) =>
        match CBHT_Remove cfg c2 heap k hs true with
        | (none, c3, heap3) =>
          CBHT_EvictFIFOAux cfg mytid hardlimit
            { c3 with hashkeylist := c3.hashkeylist ++ [(k, hs)] } heap3
        | (some r, c3, heap3) => (some r, c3, heap3)

def CBHT_EvictFIFO (cfg : Config) (c : CBHTSt) (heap : Heap) (mytid : Nat) :
    Option EntryId × CBHTSt × Heap :=
  CBHT_EvictFIFOAux cfg mytid (auxCap cfg) c heap

/-- The availability-bitmap scan of `CBHTable::Insert` (src lines 210-225):
starting after `stampincr`, wrap-around search for a clear bit, at most
`auxCap` probes; on success the bit is set and both the stamp and the new
`stampincr` are the found index; on failure the stamp keeps its initial
value 0 and nothing changes. -/
def stampScan (cfg : Config) (pool : Nat → Int) (stampincr0 : Nat) :
    Nat → Nat → Nat × Nat × (Nat → Int)
  | _, 0 => (0, stampincr0, pool)
  | i, fuel + 1 =>
    let i1 := i + 1
    let i2 := if i1 ≥ auxCap cfg then 0 else i1
    if pool (availindex cfg + i2) = 0 then
      (i2, i2, fun n => if n = availindex cfg + i2 then 1 else pool n)
    else stampScan cfg pool stampincr0 i2 fuel

/-- The chaining-and-stamp part of `CBHTable::Insert`, after the fullness
handling, acting on the possibly-evicted state. -/
def CBHT_InsertCore (cfg : Config) (c0 : CBHTSt) (heap0 : Heap) (hId : EntryId) :
    Option EntryId × CBHTSt × Heap :=
  if CBHT_IsTableFull cfg c0 then
    (some hId, c0, heap0)
  else
    let h := heapGetD heap0 hId
    let old? := chainFind? heap0 c0.chain h.key h.hash
    let chain1 := hId :: (match old? with | some o => c0.chain.erase o | none => c0.chain)
    let elems1 := if old?.isNone then c0.elems + 1 else c0.elems
    let c1 := { c0 with
      chain := chain1
      elems := elems1
      hashkeylist := c0.hashkeylist ++ [(h.key, h.hash)] }
    let heap1 := heapSet heap0 hId { h with indca := true }
    let sc := stampScan cfg c1.pool c1.stampincr c1.stampincr (auxCap cfg)
    let h1 := heapGetD heap1 hId
    let heap2 := heapSet heap1 hId
      { h1 with DCAstamp := (sc.1 : Int), DCAstamp_tc := ((sc.1 * cfg.threadcount : Nat) : Int) }
    (old?, { c1 with pool := sc.2.2, stampincr := sc.2.1 }, heap2)

/-- Embedding of `CBHTable::Insert` (src lines 178-232): if the table is at
least half full, run one `EvictFIFO` and re-check; if still half full the
insert is refused and `h` itself is returned.  Otherwise chain `h` at the
head of its bucket (unchaining a previous entry with the same key), push
`(key, hash)` onto the admission queue, set `indca`, and assign a stamp
found by the availability scan. -/
def CBHT_Insert (cfg : Config) (c : CBHTSt) (heap : Heap) (hId : EntryId)
    (mytid : Nat) : Option EntryId × CBHTSt × Heap :=
  let ce :=
    if CBHT_IsTableFull cfg c then
      let r := CBHT_EvictFIFO cfg c heap mytid
      (r.2.1, r.2.2)
    else (c, heap)
  CBHT_InsertCore cfg ce.1 ce.2 hId

/-- The cross-shard adaptive-controller arrays (file-scope globals in the
source).  All per-shard cells are indexed at `hashshard = Shard(hash) *
PADDING`, exactly as in the source. -/
structure Globals where
  CBHTState : Nat → Bool
  N : Nat → Nat
  Nsupple : Nat → Int
  nohit : Nat → Nat
  totalhit : Nat → Nat
  virtual_nohit : Nat → Nat
  virtual_totalhit : Nat → Nat
  hitrate : Nat → Int
  sortarr : Nat → Int
  DCAskip_hit : Nat → Int
  DCAflush_hit : Nat → Int

/-- State of one `LRUCacheShard`.  The circular LRU list with sentinel
becomes the list `lru` (index 0 = `lru_.next`, the eviction end; last
element = `lru_.prev`, the MRU end); the `lru_low_pri_` boundary pointer
becomes the count `lowPriLen` of entries in the low-priority prefix.  The
primary table's bucket chains are flattened like the auxiliary table's. -/
structure ShardState where
  heap : Heap
  nextId : EntryId
  table : List EntryId
  tableElems : Nat
  cbht : CBHTSt
  lru : List EntryId
  lowPriLen : Nat
  usage : Nat
  lruUsage : Nat
  highPriPoolUsage : Nat
  capacity : Nat
  highPriPoolCapacity : Nat
  strictCapacityLimit : Bool
  highPriRatioPos : Bool
  g : Globals

/-- Modelled from the spec: `LRUHandle::CalcTotalCharge` lives in the header
(not under src/); per the spec the charge "may include metadata overhead per
configuration", and with the metadata-charge policy that adds nothing the
total charge is the entry's charge, which is how it is modelled here. -/
def calcTotalCharge (e : LRUHandle) : Nat := e.charge

/-- Embedding of `LRUHandleTable::Lookup` via `FindPointer`. -/
def table_Lookup (heap : Heap) (table : List EntryId) (key hash : Nat) : Option EntryId :=
  chainFind? heap table key hash

/-- Embedding of `LRUHandleTable::Insert` (src lines 76-90): chain the new
entry at the head of its bucket, unchaining and returning a previous entry
with the same key; the element count grows only for a fresh key.  `Resize`
only redistributes buckets and is semantically invisible here. -/
def table_Insert (heap : Heap) (table : List EntryId) (elems : Nat) (hId : EntryId) :
    Option EntryId × List EntryId × Nat :=
  let h := heapGetD heap hId
  match chainFind? heap table h.key h.hash with
  | some o => (some o, hId :: table.erase o, elems)
  | none => (none, hId :: table, elems + 1)

/-- Embedding of `LRUHandleTable::Remove` (src lines 92-100). -/
def table_Remove (heap : Heap) (table : List EntryId) (elems : Nat) (key hash : Nat) :
    Option EntryId × List EntryId × Nat :=
  match chainFind? heap table key hash with
  | some o => (some o, table.erase o, elems - 1)
  | none => (none, table, elems)

/-- Embedding of `LRUCacheShard::LRU_Remove` (src lines 447-465).  The
null-link early return ("already removed") becomes a membership test;
stepping `lru_low_pri_` back is the index bookkeeping on `lowPriLen`. -/
def LRU_Remove (st : ShardState) (id : EntryId) : ShardState :=
  if id ∈ st.lru then
    let e := heapGetD st.heap id
    let pos := st.lru.indexOf id
    { st with
      lru := st.lru.erase id
      lowPriLen := if pos < st.lowPriLen then st.lowPriLen - 1 else st.lowPriLen
      lruUsage := st.lruUsage - calcTotalCharge e
      highPriPoolUsage :=
        if e.inHighPriPool then st.highPriPoolUsage - calcTotalCharge e
        else st.highPriPoolUsage }
  else st

/-- Embedding of `LRUCacheShard::MaintainPoolSize` (src lines 495-506),
fuelled by the number of entries above the boundary (the source's loop walks
`lru_low_pri_` toward the head and asserts it never reaches the
sentinel). -/
def MaintainPoolSizeAux : ShardState → Nat → ShardState
  | st, 0 => st
  | st, fuel + 1 =>
    if st.highPriPoolUsage > st.highPriPoolCapacity then
      match st.lru[st.lowPriLen]? with
      | none => st
      | some id =>
        let e := heapGetD st.heap id
        MaintainPoolSizeAux
          { st with
            lowPriLen := st.lowPriLen + 1
            heap := heapSet st.heap id { e with inHighPriPool := false }
            highPriPoolUsage := st.highPriPoolUsage - calcTotalCharge e } fuel
    else st

def MaintainPoolSize (st : ShardState) : ShardState :=
  MaintainPoolSizeAux st (st.lru.length - st.lowPriLen)

/-- Embedding of `LRUCacheShard::LRU_Insert` (src lines 467-493): with a
positive high-priority ratio, a high-priority or already-hit entry goes to
the MRU end of the high pool (end of the list) and the pool size is
maintained; otherwise the entry goes just after `lru_low_pri_` and the
boundary advances onto it. -/
def LRU_Insert (st : ShardState) (id : EntryId) : ShardState :=
  if id ∈ st.lru then st
  else
    let e := heapGetD st.heap id
    let tc := calcTotalCharge e
    if st.highPriRatioPos ∧ (e.isHighPri ∨ e.hasHit) then
      let st1 := { st with
        lru := st.lru ++ [id]
        heap := heapSet st.heap id { e with inHighPriPool := true }
        highPriPoolUsage := st.highPriPoolUsage + tc }
      let st2 := MaintainPoolSize st1
      { st2 with lruUsage := st2.lruUsage + tc }
    else
      { st with
        lru := st.lru.take st.lowPriLen ++ id :: st.lru.drop st.lowPriLen
        lowPriLen := st.lowPriLen + 1
        heap := heapSet st.heap id { e with inHighPriPool := false }
        lruUsage := st.lruUsage + tc }

/-- Modelled from the spec: the declaration of `CBHTable::Remove` (in the
header, not under src/) supplies the default for `dontforce` used by the
two-argument calls in EvictFromLRU, InsertItem-overwrite and Erase; the
spec describes those removals as unconditional, so the default is modelled
as `false` (forced removal). -/
def CBHT_RemoveDefault (cfg : Config) (c : CBHTSt) (heap : Heap) (key hash : Nat) :
    Option EntryId × CBHTSt × Heap :=
  CBHT_Remove cfg c heap key hash false

/-- The tail of the `EvictFromLRU` loop body: remove the entry from the
primary table, clear `in_cache` and subtract its charge from usage (src
lines 526-531). -/
def evictFinish (st2 : ShardState) (oldId : EntryId) : ShardState :=
  let e2 := heapGetD st2.heap oldId
  let tr := table_Remove st2.heap st2.table st2.tableElems e2.key e2.hash
  let st3 := { st2 with table := tr.2.1, tableElems := tr.2.2 }
  let e3 := heapGetD st3.heap oldId
  { st3 with
    heap := heapSet st3.heap oldId { e3 with inCache := false }
    usage := st3.usage - calcTotalCharge e3 }

/-- The loop body of `EvictFromLRU` for the current LRU-tail entry `oldId`
(src lines 512-532): `LRU_Remove` it, remove it from the auxiliary table
when `CBHTturnoff ≠ 0` and its `indca` flag is set, then `evictFinish`. -/
def evictStep (cfg : Config) (st : ShardState) (oldId : EntryId) : ShardState :=
  let st1 := LRU_Remove st oldId
  let e1 := heapGetD st1.heap oldId
  let st2 :=
    if cfg.CBHTturnoff ≠ 0 ∧ e1.indca then
      let r := CBHT_RemoveDefault cfg st1.cbht st1.heap e1.key e1.hash
      { st1 with cbht := r.2.1, heap := r.2.2 }
    else st1
  evictFinish st2 oldId

/-- Embedding of `LRUCacheShard::EvictFromLRU` (src lines 508-534), fuelled
by the LRU length (each iteration removes the head): while
`usage + charge > capacity` and the LRU is non-empty, take `lru_.next` and
run `evictStep` on it, appending it to the output list. -/
def EvictFromLRUAux (cfg : Config) (charge : Nat) : ShardState → Nat → ShardState × List EntryId
  | st, 0 => (st, [])
  | st, fuel + 1 =>
    if st.usage + charge > st.capacity then
      match st.lru.head? with
      | none => (st, [])
      | some oldId =>
        let rest := EvictFromLRUAux cfg charge (evictStep cfg st oldId) fuel
        (rest.1, oldId :: rest.2)
    else (st, [])

def EvictFromLRU (cfg : Config) (st : ShardState) (charge : Nat) :
    ShardState × List EntryId :=
  EvictFromLRUAux cfg charge st st.lru.length

/-- Result statuses of Insert (`Status::OK`, `Status::OkOverwritten`,
`Status::Incomplete`). -/
inductive RStatus where
  | ok
  | okOverwritten
  | incomplete
deriving DecidableEq, Repr

/-- Outcome of `InsertItem`: the status, the shard state, the
`last_reference_list` (entries `Free()`d — deleter run — after the mutex, in
push order), the value of `*handle` after the call, and whether the new
entry was deallocated by the `free_handle_on_fail` path (raw `delete[]`,
no deleter). -/
structure InsertOut where
  status : RStatus
  st : ShardState
  lastRefList : List EntryId
  handleOut : Option EntryId
  newEntryDeallocated : Bool

/-- The tail of `InsertItem`'s retained branch (src lines 623-628): without a
requested handle, LRU-insert the entry unless it is in the auxiliary; with a
requested handle, `Ref()` it unless it is in the auxiliary and hand the
pointer back. -/
def insertFinish (status : RStatus) (st : ShardState) (eId : EntryId)
    (frees : List EntryId) (handleRequested : Bool) (handleInit : Option EntryId) :
    InsertOut :=
  let e := heapGetD st.heap eId
  if ¬handleRequested then
    let st1 := if ¬e.indca then LRU_Insert st eId else st
    { status := status, st := st1, lastRefList := frees, handleOut := handleInit,
      newEntryDeallocated := false }
  else
    let st1 :=
      if ¬e.indca then { st with heap := heapSet st.heap eId { e with refs := e.refs + 1 } }
      else st
    { status := status, st := st1, lastRefList := frees, handleOut := some eId,
      newEntryDeallocated := false }

/-- Embedding of `LRUCacheShard::InsertItem` (src lines 564-643).  The entry
to insert is already in the heap at `eId`; `handleRequested` is `handle !=
nullptr` and `handleInit` the value `*handle` held at entry. -/
def InsertItem (cfg : Config) (st : ShardState) (eId : EntryId)
    (handleRequested freeHandleOnFail : Bool) (handleInit : Option EntryId)
    (mytid : Nat) : InsertOut :=
  let e := heapGetD st.heap eId
  let total_charge := calcTotalCharge e
  let ev := EvictFromLRU cfg st total_charge
  let st1 := ev.1
  if st1.usage + total_charge > st1.capacity ∧
      (st1.strictCapacityLimit ∨ ¬handleRequested) then
    let e1 := heapGetD st1.heap eId
    let st2 := { st1 with heap := heapSet st1.heap eId { e1 with inCache := false } }
    if ¬handleRequested then
      { status := .ok, st := st2, lastRefList := ev.2 ++ [eId], handleOut := handleInit,
        newEntryDeallocated := false }
    else if freeHandleOnFail then
      { status := .incomplete
        st := { st2 with heap := heapErase st2.heap eId }
        lastRefList := ev.2
        handleOut := none
        newEntryDeallocated := true }
    else
      { status := .incomplete, st := st2, lastRefList := ev.2, handleOut := handleInit,
        newEntryDeallocated := false }
  else
    let ti := table_Insert st1.heap st1.table st1.tableElems eId
    let st2 := { st1 with
      table := ti.2.1
      tableElems := ti.2.2
      usage := st1.usage + total_charge }
    match ti.1 with
    | none => insertFinish .ok st2 eId ev.2 handleRequested handleInit
    | some oldId =>
      let old0 := heapGetD st2.heap oldId
      let st3 := { st2 with heap := heapSet st2.heap oldId { old0 with inCache := false } }
      let pr :=
        if ¬(old0.refs > 0) then
          let st4 := LRU_Remove st3 oldId
          ({ st4 with usage := st4.usage - calcTotalCharge old0 }, [oldId])
        else (st3, ([] : List EntryId))
      let st5 :=
        if cfg.CBHTturnoff ≠ 0 ∧ (heapGetD pr.1.heap oldId).indca then
          let r := CBHT_Insert cfg pr.1.cbht pr.1.heap eId mytid
          { pr.1 with cbht := r.2.1, heap := r.2.2 }
        else pr.1
      insertFinish .okOverwritten st5 eId (ev.2 ++ pr.2) handleRequested handleInit

/-- Embedding of the entry initialisation in `LRUCacheShard::Insert` (src
lines 1052-1074).  The source allocates raw memory (`new char[...]`, no
constructor) and assigns the fields one by one; `DCAstamp` and
`DCAstamp_tc` are never assigned, so they keep the allocation's
indeterminate contents, which the embedding makes explicit as
`garbageStamp` and `garbageStampTc`. -/
def mkInsertHandle (key hash : Nat) (value : Option Nat) (charge : Nat)
    (secondaryCompat highPri : Bool) (garbageStamp garbageStampTc : Int) : LRUHandle :=
  { key := key, hash := hash, value := value, charge := charge, refs := 0,
    inCache := true, isHighPri := highPri, hasHit := false, inHighPriPool := false,
    secondaryCompat := secondaryCompat, promoted := false, pending := false,
    incompleteFlag := false, indca := false,
    DCAstamp := garbageStamp, DCAstamp_tc := garbageStampTc }

/-- Embedding of `LRUCacheShard::Insert` (src lines 1044-1077): allocate the
entry and call `InsertItem` with `free_handle_on_fail = true`. -/
def LRUCacheShard_Insert (cfg : Config) (st : ShardState) (key hash : Nat)
    (value : Option Nat) (charge : Nat) (secondaryCompat highPri : Bool)
    (handleRequested : Bool) (garbageStamp garbageStampTc : Int) (mytid : Nat) :
    InsertOut :=
  let eId := st.nextId
  let e := mkInsertHandle key hash value charge secondaryCompat highPri
    garbageStamp garbageStampTc
  let st1 := { st with heap := heapSet st.heap eId e, nextId := eId + 1 }
  InsertItem cfg st1 eId handleRequested true none mytid

/-- Outcome of `Release`: the returned Boolean, the shard state, and the
entries `Free()`d by this call. -/
structure ReleaseOut where
  ret : Bool
  st : ShardState
  freed : List EntryId

/-- The tail of `Release` (src lines 1029-1041): on a last reference whose
entry is not a value-less secondary-cache dummy, subtract the charge; a last
reference is freed outside the mutex. -/
def releaseFinish (st : ShardState) (eId : EntryId) (last : Bool) : ReleaseOut :=
  let e := heapGetD st.heap eId
  let st1 :=
    if last ∧ (¬e.secondaryCompat ∨ e.value.isSome) then
      { st with usage := st.usage - calcTotalCharge e }
    else st
  ⟨last, st1, if last then [eId] else []⟩

/-- Embedding of `LRUCacheShard::Release` (src lines 982-1042).  A null
handle returns false with nothing touched.  With `CBHTturnoff ≠ 0` an
in-auxiliary entry only gets `CBHT_Unref` and the call returns true without
freeing (the source re-checks `indca` after taking the mutex; sequentially
the state is unchanged between the checks, so the embedded single check
takes the same branch).  Otherwise the reference count is decremented
(`Unref`, modelled from the spec since the header is not under src/: report
whether the count reached zero, the source asserting `refs > 0`); a last
reference still in cache is either removed from the primary table
(over-capacity or `force_erase`) or re-inserted into the LRU and kept. -/
def Release (cfg : Config) (st : ShardState) (handle : Option EntryId)
    (force_erase : Bool) (mytid : Nat) : ReleaseOut :=
  match handle with
  | none => ⟨false, st, []⟩
  | some eId =>
    let e0 := heapGetD st.heap eId
    if cfg.CBHTturnoff ≠ 0 ∧ e0.indca then
      ⟨true, { st with cbht := CBHT_Unref cfg st.cbht e0 mytid }, []⟩
    else
      let e1 := { e0 with refs := e0.refs - 1 }
      let last := e0.refs - 1 == 0
      let st1 := { st with heap := heapSet st.heap eId e1 }
      if last ∧ e1.inCache then
        if st1.usage > st1.capacity ∨ force_erase then
          let tr := table_Remove st1.heap st1.table st1.tableElems e1.key e1.hash
          let st2 := { st1 with
            table := tr.2.1
            tableElems := tr.2.2
            heap := heapSet st1.heap eId { e1 with inCache := false } }
          releaseFinish st2 eId true
        else
          let st2 := if ¬e1.indca then LRU_Insert st1 eId else st1
          releaseFinish st2 eId false
      else
        releaseFinish st1 eId last

/-- Pointwise update of an array modelled as a function. -/
def fupd {α : Type} (f : Nat → α) (i : Nat) (v : α) : Nat → α :=
  fun n => if n = i then v else f n

def insertSorted (a : Int) : List Int → List Int
  | [] => [a]
  | b :: l => if a ≤ b then a :: b :: l else b :: insertSorted a l

/-- Ascending insertion sort on integers.  The cells are plain integers
with a total order, so any correct sort computes the same array as the
source's `qsort` with `cmpfunc (a, b) = a - b`. -/
def sortInts : List Int → List Int
  | [] => []
  | a :: l => insertSorted a (sortInts l)

/-- Embedding of `copyAndSort` (src lines 687-694): the copy loop writes
`hitrate[i]` into `sortarr[i]` for `i = 0, PADDING, 2·PADDING, …` below
`shardnumlimit · PADDING`, while `qsort(sortarr, shardnumlimit, …)` sorts
the contiguous first `shardnumlimit` cells of `sortarr` ascending (the
cells are plain integers, so any correct sort models `qsort`). -/
def copyAndSort (cfg : Config) (hitrate sortarr : Nat → Int) : Nat → Int :=
  let afterCopy : Nat → Int := fun i =>
    if i < cfg.shardnumlimit * cfg.PADDING ∧ i % cfg.PADDING = 0 then hitrate i
    else sortarr i
  let sortedPre := sortInts ((List.range cfg.shardnumlimit).map afterCopy)
  fun i => if i < cfg.shardnumlimit then sortedPre.getD i 0 else afterCopy i

/-- The scratch array content the spec describes ("copy all shards'
hitrates into a scratch array and sort"): the sorted list of the per-shard
hitrate cells `hitrate[k · PADDING]` for `k < shardnumlimit`.  This
definition follows the spec's words, for comparison with `copyAndSort`. -/
def sortedHitratesSpec (cfg : Config) (hitrate : Nat → Int) : List Int :=
  sortInts ((List.range cfg.shardnumlimit).map (fun k => hitrate (k * cfg.PADDING)))

/-- The `skip_median` expression of src line 805:
`(sortarr[(shardnumlimit - 1) * CBHTturnoff / 100] + CBHTturnoff) / 2`
(C `int` division, truncating). -/
def skipMedianOf (cfg : Config) (sortarr : Nat → Int) : Int :=
  Int.tdiv (sortarr ((cfg.shardnumlimit - 1) * cfg.CBHTturnoff / 100) + (cfg.CBHTturnoff : Int)) 2

/-- The `flush_median` expression of src line 806, analogous with
`DCAflush`. -/
def flushMedianOf (cfg : Config) (sortarr : Nat → Int) : Int :=
  Int.tdiv (sortarr ((cfg.shardnumlimit - 1) * cfg.DCAflush / 100) + (cfg.DCAflush : Int)) 2

/-- The flush loop of the controller (src lines 833-838): `EvictFIFO` until
it yields null, re-inserting each evicted entry into the LRU.  Each
successful eviction removes one chained element, so the auxiliary element
count bounds the iterations (the fuel). -/
def flushLoopAux (cfg : Config) (mytid : Nat) : ShardState → Nat → ShardState
  | st, 0 => st
  | st, fuel + 1 =>
    let r := CBHT_EvictFIFO cfg st.cbht st.heap mytid
    let st1 := { st with cbht := r.2.1, heap := r.2.2 }
    match r.1 with
    | none => st1
    | some ev => flushLoopAux cfg mytid (LRU_Insert st1 ev) fuel

/-- The refill loop of the controller (src lines 870-881): starting from
`lru_.prev` (the MRU end), insert LRU entries into the auxiliary table and
remove them from the LRU while the table is not half full and the LRU is
non-empty.  Each iteration removes the current last LRU element, so the LRU
length bounds the iterations (the fuel). -/
def refillLoopAux (cfg : Config) (mytid : Nat) : ShardState → Nat → ShardState
  | st, 0 => st
  | st, fuel + 1 =>
    if ¬CBHT_IsTableFull cfg st.cbht ∧ st.lru ≠ [] then
      match st.lru.getLast? with
      | none => st
      | some tmp =>
        let r := CBHT_Insert cfg st.cbht st.heap tmp mytid
        let st1 := { st with cbht := r.2.1, heap := r.2.2 }
        refillLoopAux cfg mytid (LRU_Remove st1 tmp) fuel
    else st

/-- Embedding of the adaptive-controller decision body (src lines 790-893,
the code under the re-checked `N[hashshard] > NLIMIT`): reset the window
counter; compute the shard hitrate from whichever counter pair saw more
traffic (C `int` arithmetic; the divisions are guarded in context by the
surrounding increments); `copyAndSort`; compute and store the two medians;
average the `DCAskip_hit`/`DCAflush_hit` cells at indices `0 ≤ i <
shardnumlimit` (the source iterates without the `PADDING` stride here);
derive `Nsupple`; flush the auxiliary table when `DCAflush ≠ 0` and the
hitrate is below the average flush median; insert the just-hit entry into
the auxiliary table and refill it from the MRU end of the LRU; re-enable
the fast path when the hitrate exceeds the average skip median; reset the
hit counters. -/
def controllerBody (cfg : Config) (st : ShardState) (hs : Nat) (eId : EntryId)
    (mytid : Nat) : ShardState :=
  let g1 := { st.g with N := fupd st.g.N hs 0 }
  let hr : Int :=
    if g1.totalhit hs > g1.virtual_totalhit hs then
      100 - ((g1.nohit hs * 100 / g1.totalhit hs : Nat) : Int)
    else
      100 - ((g1.virtual_nohit hs * 100 / g1.virtual_totalhit hs : Nat) : Int)
  let g2 := { g1 with hitrate := fupd g1.hitrate hs hr }
  let g3 := { g2 with sortarr := copyAndSort cfg g2.hitrate g2.sortarr }
  let skipm := skipMedianOf cfg g3.sortarr
  let flushm := flushMedianOf cfg g3.sortarr
  let g4 := { g3 with
    DCAskip_hit := fupd g3.DCAskip_hit hs skipm
    DCAflush_hit := fupd g3.DCAflush_hit hs flushm }
  let avgSkip := Int.tdiv (((List.range cfg.shardnumlimit).map g4.DCAskip_hit).sum)
    (cfg.shardnumlimit : Int)
  let g5 := { g4 with Nsupple := fupd g4.Nsupple hs (Int.tdiv ((cfg.NLIMIT : Int) * avgSkip) 100) }
  let avgFlush := Int.tdiv (((List.range cfg.shardnumlimit).map g5.DCAflush_hit).sum)
    (cfg.shardnumlimit : Int)
  let st5 := { st with g := g5 }
  let st6 :=
    if cfg.DCAflush ≠ 0 ∧ g5.hitrate hs < avgFlush then
      flushLoopAux cfg mytid st5 (st5.cbht.elems + 1)
    else st5
  let r1 := CBHT_Insert cfg st6.cbht st6.heap eId mytid
  let st7 := { st6 with cbht := r1.2.1, heap := r1.2.2 }
  let st8 := refillLoopAux cfg mytid st7 st7.lru.length
  let g9 :=
    if st8.g.hitrate hs > avgSkip then
      { st8.g with CBHTState := fupd st8.g.CBHTState hs true }
    else st8.g
  let g10 := { g9 with
    nohit := fupd g9.nohit hs 0
    totalhit := fupd g9.totalhit hs 0
    virtual_nohit := fupd g9.virtual_nohit hs 0
    virtual_totalhit := fupd g9.virtual_totalhit hs 0 }
  { st8 with g := g10 }

/-- The slow ("vanilla") path of `LRUCacheShard::Lookup` (src lines
757-898): primary lookup under the shard mutex; on a hit bump the virtual
counters, remove the entry from the LRU, `Ref()` it unless it is
in-auxiliary, set its hit flag, and with `CBHTturnoff ≠ 0` bump the window
counter and run the controller decision when it exceeds `NLIMIT`. -/
def lookupSlow (cfg : Config) (st : ShardState) (key hash : Nat) (hs mytid : Nat) :
    Option EntryId × ShardState :=
  match table_Lookup st.heap st.table key hash with
  | none => (none, st)
  | some id =>
    let e := heapGetD st.heap id
    let g1 := { st.g with
      virtual_totalhit := fupd st.g.virtual_totalhit hs (st.g.virtual_totalhit hs + 1) }
    let g2 :=
      if e.indca ≠ true then
        { g1 with virtual_nohit := fupd g1.virtual_nohit hs (g1.virtual_nohit hs + 1) }
      else g1
    let st1 := { st with g := g2 }
    let st2 := LRU_Remove st1 id
    let st3 :=
      if e.indca ≠ true then
        let e2 := heapGetD st2.heap id
        { st2 with heap := heapSet st2.heap id { e2 with refs := e2.refs + 1 } }
      else st2
    let e3 := heapGetD st3.heap id
    let st4 := { st3 with heap := heapSet st3.heap id { e3 with hasHit := true } }
    let st5 :=
      if cfg.CBHTturnoff ≠ 0 then
        let gN := { st4.g with N := fupd st4.g.N hs (st4.g.N hs + 1) }
        let stN := { st4 with g := gN }
        if gN.N hs > cfg.NLIMIT then controllerBody cfg stN hs id mytid else stN
      else st4
    (some id, st5)

/-- Outcome of `Lookup`: the returned handle, whether the auxiliary-table
lookup was performed (the read-lock block of the fast path), whether the
secondary cache was consulted, and the shard state. -/
structure LookupOut where
  result : Option EntryId
  auxLookupDone : Bool
  secondaryConsulted : Bool
  st : ShardState

/-- The per-shard stat index `Shard(hash) * PADDING` (src line 725);
`Shard(hash) = hash & ((1 << numshardbits) - 1)`. -/
def hashShardIdx (cfg : Config) (hash : Nat) : Nat :=
  (hash % 2 ^ cfg.numshardbits) * cfg.PADDING

/-- Embedding of `Promote` (src lines 645-680) for a ready secondary-cache
result carrying value `v` and size `size`: fill the entry and `InsertItem`
it with a pre-set handle and `free_handle_on_fail = false`; on a
non-Incomplete status drop the reference `InsertItem` took; a null value
marks the entry not-in-cache with zero charge. -/
def Promote (cfg : Config) (st : ShardState) (eId : EntryId) (v : Option Nat)
    (size : Nat) (mytid : Nat) : ShardState :=
  let e := heapGetD st.heap eId
  let e1 := { e with
    incompleteFlag := false
    inCache := true
    promoted := true
    value := v
    charge := size }
  let st1 := { st with heap := heapSet st.heap eId e1 }
  if v.isSome then
    let r := InsertItem cfg st1 eId true false (some eId) mytid
    if r.status ≠ RStatus.incomplete then
      let e2 := heapGetD r.st.heap eId
      { r.st with heap := heapSet r.st.heap eId { e2 with refs := e2.refs - 1 } }
    else r.st
  else
    let e2 := heapGetD st1.heap eId
    { st1 with heap := heapSet st1.heap eId { e2 with charge := 0, inCache := false } }

/-- The post-mutex secondary-cache block of `Lookup` (src lines 913-961).
On a miss of the in-mutex lookup with a configured secondary cache AND a
helper that has a save callback, the secondary cache is consulted
(`secOracle` is its external outcome: `none` = null handle, otherwise the
value — possibly null — and size the result handle reports).  On a
non-null handle a fresh secondary-compatible entry is allocated (the source
leaves `indca` and the stamps to raw-memory contents on this path; they are
written as 0 here, and no claim depends on them) and either promoted
(`wait`) or returned incomplete. -/
def lookupSecondary (cfg : Config) (st : ShardState) (mainResult : Option EntryId)
    (auxDone : Bool) (key hash : Nat)
    (helperPresent savetoCb secondaryConfigured wait : Bool)
    (secOracle : Option (Option Nat × Nat)) (priority : Bool) (mytid : Nat) :
    LookupOut :=
  match mainResult with
  | some id => ⟨some id, auxDone, false, st⟩
  | none =>
    if secondaryConfigured ∧ helperPresent ∧ savetoCb then
      match secOracle with
      | none => ⟨none, auxDone, true, st⟩
      | some vs =>
        let eId := st.nextId
        let e : LRUHandle :=
          { key := key, hash := hash, value := none, charge := 0, refs := 1,
            inCache := false, isHighPri := priority, hasHit := false,
            inHighPriPool := false, secondaryCompat := true, promoted := false,
            pending := false, incompleteFlag := false, indca := false,
            DCAstamp := 0, DCAstamp_tc := 0 }
        let st1 := { st with heap := heapSet st.heap eId e, nextId := eId + 1 }
        if wait then
          let st2 := Promote cfg st1 eId vs.1 vs.2 mytid
          let e2 := heapGetD st2.heap eId
          if e2.value.isSome then ⟨some eId, auxDone, true, st2⟩
          else ⟨none, auxDone, true, { st2 with heap := heapErase st2.heap eId }⟩
        else
          let e2 := heapGetD st1.heap eId
          ⟨some eId, auxDone, true,
            { st1 with heap := heapSet st1.heap eId { e2 with incompleteFlag := true } }⟩
    else ⟨none, auxDone, false, st⟩

/-- Embedding of `LRUCacheShard::Lookup` (src lines 697-962), without the
wall-clock statistics printing.  With `CBHTturnoff ≠ 0` the primary table
is checked first as a negative filter, returning null immediately on a
miss; only then, if the shard's fast path is enabled (`CBHTState` cell, or
`CBHTturnoff = 100`), is the auxiliary table consulted under the read lock,
with the hit/miss counters and the `Nsupple` deactivation check; any miss
falls through to the slow path and then to the secondary-cache block. -/
def LRUCacheShard_Lookup (cfg : Config) (st : ShardState) (key hash : Nat)
    (helperPresent savetoCb secondaryConfigured wait : Bool)
    (secOracle : Option (Option Nat × Nat)) (priority : Bool) (mytid : Nat) :
    LookupOut :=
  let hs := hashShardIdx cfg hash
  if cfg.CBHTturnoff ≠ 0 then
    match table_Lookup st.heap st.table key hash with
    | none => ⟨none, false, false, st⟩
    | some _ =>
      if st.g.CBHTState hs ∨ cfg.CBHTturnoff = 100 then
        let cl := CBHT_Lookup cfg st.cbht st.heap key hash mytid
        let g1 := { st.g with totalhit := fupd st.g.totalhit hs (st.g.totalhit hs + 1) }
        match cl.1 with
        | some id => ⟨some id, true, false, { st with cbht := cl.2, g := g1 }⟩
        | none =>
          let g2 := { g1 with nohit := fupd g1.nohit hs (g1.nohit hs + 1) }
          let g3 :=
            if cfg.CBHTturnoff ≠ 100 ∧ (g2.nohit hs : Int) > g2.Nsupple hs then
              { g2 with CBHTState := fupd g2.CBHTState hs false }
            else g2
          let st1 := { st with cbht := cl.2, g := g3 }
          let sp := lookupSlow cfg st1 key hash hs mytid
          lookupSecondary cfg sp.2 sp.1 true key hash helperPresent savetoCb
            secondaryConfigured wait secOracle priority mytid
      else
        let sp := lookupSlow cfg st key hash hs mytid
        lookupSecondary cfg sp.2 sp.1 false key hash helperPresent savetoCb
          secondaryConfigured wait secOracle priority mytid
  else
    let sp := lookupSlow cfg st key hash hs mytid
    lookupSecondary cfg sp.2 sp.1 false key hash helperPresent savetoCb
      secondaryConfigured wait secOracle priority mytid

/-- The fast-path activity condition the spec calls "the auxiliary index is
active for this shard, determined by the adaptive controller":
`CBHTturnoff = 0` disables it entirely, `CBHTturnoff = 100` keeps it
permanently on, otherwise the shard's `CBHTState` cell decides. -/
def auxActive (cfg : Config) (st : ShardState) (hash : Nat) : Bool :=
  cfg.CBHTturnoff ≠ 0 ∧ (st.g.CBHTState (hashShardIdx cfg hash) ∨ cfg.CBHTturnoff = 100)

/-- Result of the `LRUCache` constructor (src lines 1158-1177): the shard
count `1 << num_shard_bits` and the per-shard capacity
`(capacity + (num_shards - 1)) / num_shards`. -/
structure LRUCacheCfg where
  num_shards : Nat
  per_shard : Nat
  strict : Bool
deriving Repr, DecidableEq

/-- Embedding of `NewLRUCache` (src lines 1272-1292): null when
`num_shard_bits >= 20` or the priority-pool ratio is outside `[0, 1]`;
negative `num_shard_bits` is replaced by `GetDefaultCacheShardBits`
(defined outside src/ and abstracted as the `defaultBits` argument);
otherwise a cache is constructed.  The `double` ratio is modelled as a
rational, exact for the two comparisons performed. -/
def NewLRUCache (defaultBits : Nat → Nat) (capacity : Nat) (num_shard_bits : Int)
    (strict_capacity_limit : Bool) (hpr : ℚ) : Option LRUCacheCfg :=
  if num_shard_bits ≥ 20 then none
  else if hpr < 0 ∨ hpr > 1 then none
  else
    let bits := if num_shard_bits < 0 then defaultBits capacity else num_shard_bits.toNat
    let n := 2 ^ bits
    some { num_shards := n, per_shard := (capacity + (n - 1)) / n,
           strict := strict_capacity_limit }

/-! Base states and invariant predicates. -/

def zeroGlobals : Globals :=
  { CBHTState := fun _ => false, N := fun _ => 0, Nsupple := fun _ => 0,
    nohit := fun _ => 0, totalhit := fun _ => 0, virtual_nohit := fun _ => 0,
    virtual_totalhit := fun _ => 0, hitrate := fun _ => 0, sortarr := fun _ => 0,
    DCAskip_hit := fun _ => 0, DCAflush_hit := fun _ => 0 }

def emptyCBHT : CBHTSt :=
  { elems := 0, chain := [], hashkeylist := [], pool := fun _ => 0, stampincr := 0 }

/-- A freshly constructed shard (`LRUCacheShard::LRUCacheShard`) with the
given capacity and strict flag, zero high-priority pool. -/
def emptyShard (capacity : Nat) (strict : Bool) : ShardState :=
  { heap := heapEmpty, nextId := 0, table := [], tableElems := 0, cbht := emptyCBHT,
    lru := [], lowPriLen := 0, usage := 0, lruUsage := 0, highPriPoolUsage := 0,
    capacity := capacity, highPriPoolCapacity := 0, strictCapacityLimit := strict,
    highPriRatioPos := false, g := zeroGlobals }

/-- Sum of total charges of the listed entries. -/
def chargeSumOf (heap : Heap) (l : List EntryId) : Nat :=
  (l.map (fun id => calcTotalCharge (heapGetD heap id))).sum

/-- The heap fields that an operation batch leaves untouched on every cell:
allocation status, key, hash, charge, value and the `in_cache` flag. -/
def heapFieldsPres (h h' : Heap) : Prop :=
  ∀ i, (heapGet h' i).isSome = (heapGet h i).isSome ∧
    (heapGetD h' i).key = (heapGetD h i).key ∧
    (heapGetD h' i).hash = (heapGetD h i).hash ∧
    (heapGetD h' i).charge = (heapGetD h i).charge ∧
    (heapGetD h' i).value = (heapGetD h i).value ∧
    (heapGetD h' i).inCache = (heapGetD h i).inCache

/-- Claim C3's invariant on one entry: a stamp in range with its
availability bit set when `in_auxiliary`, and the no-stamp value -1
otherwise. -/
def stampInvariant (cfg : Config) (pool : Nat → Int) (e : LRUHandle) : Prop :=
  (e.indca = true → 0 ≤ e.DCAstamp ∧ e.DCAstamp < (auxCap cfg : Int) ∧
    pool (availindex cfg + e.DCAstamp.toNat) = 1) ∧
  (e.indca = false → e.DCAstamp = -1)

/-- Pairwise-distinct `(key, hash)` pairs along a chain (rules out both key
collisions and duplicated ids). -/
def pairKeyDistinct (heap : Heap) (l : List EntryId) : Prop :=
  l.Pairwise (fun i j =>
    (heapGetD heap i).key ≠ (heapGetD heap j).key ∨
    (heapGetD heap i).hash ≠ (heapGetD heap j).hash)

/-- Well-formedness of a shard used by the eviction and insertion theorems:
distinct keys per table, a duplicate-free LRU of live, primary-indexed
entries, and in-auxiliary LRU entries carrying a valid stamp and an
auxiliary chain position (with `CBHTturnoff ≠ 0`, since auxiliary entries
only arise on that configuration), the others staying out of the auxiliary
chain. -/
def WF4 (cfg : Config) (st : ShardState) : Prop :=
  pairKeyDistinct st.heap st.table ∧
  pairKeyDistinct st.heap st.cbht.chain ∧
  st.lru.Nodup ∧
  (∀ id ∈ st.lru, (heapGet st.heap id).isSome = true) ∧
  (∀ id ∈ st.lru, id ∈ st.table) ∧
  (∀ id ∈ st.lru, (heapGetD st.heap id).indca = true →
    cfg.CBHTturnoff ≠ 0 ∧ id ∈ st.cbht.chain ∧
    0 ≤ (heapGetD st.heap id).DCAstamp ∧
    (heapGetD st.heap id).DCAstamp < (auxCap cfg : Int)) ∧
  (∀ id ∈ st.lru, (heapGetD st.heap id).indca = false → id ∉ st.cbht.chain)

/-! Concrete configurations and states for the claim witnesses and
counterexamples. -/

def cfg0 : Config :=
  { CBHTbitlength := 2, threadcount := 2, CBHTturnoff := 0, DCAflush := 0,
    NLIMIT := 100, shardnumlimit := 1, PADDING := 16, numshardbits := 0 }

def cfgT50 : Config := { cfg0 with CBHTturnoff := 50 }

def cfgC1 : Config := { cfg0 with CBHTbitlength := 1, CBHTturnoff := 50 }

def eC1 : LRUHandle :=
  { defaultHandle with key := 7, hash := 3, indca := true, DCAstamp := 0, DCAstamp_tc := 0 }

def heapC1 : Heap := fun i => if i = 0 then some eC1 else none

/-- Auxiliary state whose stamp-0 tally row holds +1 and -1 (net zero) for
two threads, stamp 0 marked taken (`availindex cfgC1 = 4`). -/
def cC1 : CBHTSt :=
  { elems := 1, chain := [0], hashkeylist := [(7, 3)],
    pool := fun n => if n = 0 then 1 else if n = 1 then -1 else if n = 4 then 1 else 0,
    stampincr := 0 }

/-- Auxiliary state whose stamp-0 tally row holds net +5. -/
def cC1w : CBHTSt :=
  { elems := 1, chain := [0], hashkeylist := [(7, 3)],
    pool := fun n => if n = 0 then 5 else if n = 4 then 1 else 0,
    stampincr := 0 }

def eC2x : LRUHandle :=
  { defaultHandle with
    key := 7
    hash := 3
    indca := true
    DCAstamp := 0
    DCAstamp_tc := 0
    refs := 1
    inCache := true
    charge := 5 }

/-- A shard holding one in-auxiliary entry (`availindex cfgT50 = 8`). -/
def stC2x : ShardState :=
  { emptyShard 100 false with
    heap := fun i => if i = 0 then some eC2x else none
    nextId := 1
    table := [0]
    tableElems := 1
    cbht := { emptyCBHT with
      elems := 1
      chain := [0]
      hashkeylist := [(7, 3)]
      pool := fun n => if n = 8 then 1 else 0 } }

def eC2w : LRUHandle :=
  { defaultHandle with key := 4, hash := 9, refs := 1, inCache := true, charge := 30 }

/-- A shard holding one externally referenced, non-auxiliary entry. -/
def stC2w : ShardState :=
  { emptyShard 100 false with
    heap := fun i => if i = 0 then some eC2w else none
    nextId := 1
    table := [0]
    tableElems := 1
    usage := 30 }

def cfgC4 : Config := cfgC1

def eC4a : LRUHandle :=
  { defaultHandle with key := 1, hash := 10, charge := 20, inCache := true }

def eC4b : LRUHandle :=
  { defaultHandle with
    key := 2
    hash := 20
    charge := 40
    inCache := true
    indca := true
    DCAstamp := 0
    DCAstamp_tc := 0 }

/-- A shard over capacity (usage 60, capacity 10) with two LRU entries, the
second in-auxiliary with stamp 0 (`availindex cfgC4 = 4`). -/
def stC4w : ShardState :=
  { emptyShard 10 false with
    heap := fun i => if i = 0 then some eC4a else if i = 1 then some eC4b else none
    nextId := 2
    table := [0, 1]
    tableElems := 2
    cbht := { emptyCBHT with
      elems := 1
      chain := [1]
      hashkeylist := [(2, 20)]
      pool := fun n => if n = 4 then 1 else 0 }
    lru := [0, 1]
    lowPriLen := 2
    usage := 60
    lruUsage := 60 }

/-- First insert of key 5 (charge 40, capacity 100). -/
def iC6a : InsertOut :=
  LRUCacheShard_Insert cfg0 (emptyShard 100 false) 5 50 (some 1) 40 false false false 0 0 0

/-- Oversized overwrite of key 5: charge 201 exceeds the capacity even after
eviction, no out-handle requested. -/
def iC6aRe : InsertOut :=
  LRUCacheShard_Insert cfg0 iC6a.st 5 50 (some 9) 201 false false false 0 0 0

/-- First insert of key 5 pinned by a handle (charge 90, capacity 100,
strict). -/
def iC6b1 : InsertOut :=
  LRUCacheShard_Insert cfg0 (emptyShard 100 true) 5 50 (some 1) 90 false false true 0 0 0

/-- Strict overwrite attempt of the pinned key 5 with an out-handle. -/
def iC6b2 : InsertOut :=
  LRUCacheShard_Insert cfg0 iC6b1.st 5 50 (some 2) 50 false false true 0 0 0

def eC6w : LRUHandle := mkInsertHandle 5 50 (some 2) 40 false false 0 0

/-- The state after `iC6a` with a second entry for key 5 freshly
allocated at id 1. -/
def stC6w : ShardState :=
  { iC6a.st with heap := heapSet iC6a.st.heap 1 eC6w, nextId := 2 }

/-- A shard with every `CBHTState` cell enabled. -/
def st7a : ShardState :=
  { emptyShard 100 false with g := { zeroGlobals with CBHTState := fun _ => true } }

def cfg8 : Config := { cfg0 with shardnumlimit := 2, PADDING := 16, CBHTturnoff := 50 }

/-- Hitrates as stored by the source: shard 0 at cell 0 holds 10, shard 1
at cell `PADDING = 16` holds 90. -/
def hr8 : Nat → Int := fun i => if i = 0 then 10 else if i = 16 then 90 else 0

/-- Stale scratch array contents (all zero). -/
def sa8 : Nat → Int := fun _ => 0

/-! Helper lemmas. -/

theorem heapGet_heapSet_self (h : Heap) (i : EntryId) (e : LRUHandle) :
    heapGet (heapSet h i e) i = some e := by
  simp [heapGet, heapSet]

theorem heapGet_heapSet_ne (h : Heap) (i j : EntryId) (e : LRUHandle) (hne : j ≠ i) :
    heapGet (heapSet h i e) j = heapGet h j := by
  simp [heapGet, heapSet, hne]

theorem heapGetD_heapSet_ne (h : Heap) (i j : EntryId) (e : LRUHandle) (hne : j ≠ i) :
    heapGetD (heapSet h i e) j = heapGetD h j := by
  simp [heapGetD, heapGet_heapSet_ne h i j e hne]

/-! Claim theorems. -/

/-- Claim C10: for both values of `force_erase`, calling Release with a null
handle returns false, frees nothing, and leaves the entire shard state
(tables, LRU list, usage, tallies) unchanged. -/
theorem C10_release_null (cfg : Config) (st : ShardState) (force_erase : Bool)
    (mytid : Nat) :
    Release cfg st none force_erase mytid = ⟨false, st, []⟩ := rfl

/-- Claim C3 (code bug): `LRUCacheShard::Insert` allocates the entry as raw
memory and never writes `DCAstamp`, so when the indeterminate contents are
nonzero (here 5) a single public Insert yields an entry with
`in_auxiliary = false` whose `aux_stamp` is 5, not -1 — the claimed
invariant is violated. -/
theorem C3_fresh_entry_stamp_not_reset :
    (heapGetD (LRUCacheShard_Insert cfg0 (emptyShard 100 false) 1 10 (some 111) 40
        false false false 5 10 0).st.heap 0).indca = false ∧
    (heapGetD (LRUCacheShard_Insert cfg0 (emptyShard 100 false) 1 10 (some 111) 40
        false false false 5 10 0).st.heap 0).DCAstamp = 5 ∧
    ¬ stampInvariant cfg0
      (LRUCacheShard_Insert cfg0 (emptyShard 100 false) 1 10 (some 111) 40
        false false false 5 10 0).st.cbht.pool
      (heapGetD (LRUCacheShard_Insert cfg0 (emptyShard 100 false) 1 10 (some 111) 40
        false false false 5 10 0).st.heap 0) := by
  refine ⟨by decide, by decide, ?_⟩
  unfold stampInvariant
  decide

/-- Claim C8 (code bug): `copyAndSort` writes the shards' hitrates at
stride-`PADDING` cells of `sortarr` but `qsort` sorts the contiguous first
`shardnumlimit` cells, so the sorted prefix is not the sorted copy of the
shards' hitrates: with two shards (hitrates 10 and 90, stale scratch zeros)
the code's sorted prefix is `[0, 10]` instead of `[10, 90]`, and the
`skip_median` computed from it is 25 instead of the 30 the claim's formula
over the sorted hitrates yields. -/
theorem C8_copyAndSort_stride_bug :
    (List.range cfg8.shardnumlimit).map (copyAndSort cfg8 hr8 sa8) = [0, 10] ∧
    sortedHitratesSpec cfg8 hr8 = [10, 90] ∧
    skipMedianOf cfg8 (copyAndSort cfg8 hr8 sa8) = 25 ∧
    Int.tdiv ((sortedHitratesSpec cfg8 hr8).getD
      ((cfg8.shardnumlimit - 1) * cfg8.CBHTturnoff / 100) 0 + (cfg8.CBHTturnoff : Int)) 2
      = 30 := by
  decide

/-- Claim C9 counterexample: `num_shard_bits = -1` lies outside `[0, 19]`,
yet `NewLRUCache` does not fail: it substitutes `GetDefaultCacheShardBits`
and returns a non-null cache. -/
theorem C9_counterexample :
    (NewLRUCache (fun _ => 6) 100 (-1) false (0 : ℚ)).isSome = true ∧
    ¬(0 ≤ (-1 : Int) ∧ (-1 : Int) ≤ 19) := by
  constructor
  · decide
  · decide

/-- Claim C9 amended: construction fails returning null exactly when
`num_shard_bits ≥ 20` or the priority-pool ratio is outside `[0, 1]`;
a negative `num_shard_bits` is replaced by a computed default and, like
every other in-range tuple, yields a non-null cache. -/
theorem C9_newcache_amended (defaultBits : Nat → Nat) (capacity : Nat)
    (num_shard_bits : Int) (strict : Bool) (hpr : ℚ) :
    NewLRUCache defaultBits capacity num_shard_bits strict hpr = none ↔
      (num_shard_bits ≥ 20 ∨ hpr < 0 ∨ hpr > 1) := by
  unfold NewLRUCache
  split_ifs with h1 h2
  · exact iff_of_true rfl (Or.inl h1)
  · exact iff_of_true rfl (Or.inr h2)
  · apply iff_of_false
    · simp
    · rintro (hc | hc)
      · exact h1 hc
      · exact h2 hc

theorem releaseFinish_iff (st : ShardState) (eId : EntryId) (b : Bool) :
    ((releaseFinish st eId b).ret = true ↔ (releaseFinish st eId b).freed = [eId]) ∧
    ((releaseFinish st eId b).ret = false ↔ (releaseFinish st eId b).freed = []) := by
  cases b <;> simp [releaseFinish]

/-- Claim C2 counterexample: an in-auxiliary entry (with `CBHTturnoff ≠ 0`)
makes Release return true while freeing nothing — the entry is still live —
so "returns true if and only if the entry was freed by this call" fails. -/
theorem C2_counterexample :
    (Release cfgT50 stC2x (some 0) false 0).ret = true ∧
    (Release cfgT50 stC2x (some 0) false 0).freed = [] ∧
    heapGet (Release cfgT50 stC2x (some 0) false 0).st.heap 0 = some eC2x := by
  refine ⟨by decide, by decide, by decide⟩

/-- Claim C2 amended: Release(handle, force_erase) returns true iff the
entry was freed by this call, except on the in-auxiliary path
(`CBHTturnoff ≠ 0` and the entry's `indca` set), where it returns true
immediately after `CBHT_Unref` without freeing the entry. -/
theorem C2_release_amended (cfg : Config) (st : ShardState) (eId : EntryId)
    (force_erase : Bool) (mytid : Nat) (e : LRUHandle)
    (hget : heapGet st.heap eId = some e) :
    ((cfg.CBHTturnoff ≠ 0 ∧ e.indca = true) →
      (Release cfg st (some eId) force_erase mytid).ret = true ∧
      (Release cfg st (some eId) force_erase mytid).freed = [] ∧
      heapGet (Release cfg st (some eId) force_erase mytid).st.heap eId = some e) ∧
    (¬(cfg.CBHTturnoff ≠ 0 ∧ e.indca = true) →
      ((Release cfg st (some eId) force_erase mytid).ret = true ↔
        (Release cfg st (some eId) force_erase mytid).freed = [eId]) ∧
      ((Release cfg st (some eId) force_erase mytid).ret = false ↔
        (Release cfg st (some eId) force_erase mytid).freed = [])) := by
  have hD : heapGetD st.heap eId = e := by simp [heapGetD, hget]
  constructor
  · intro h
    simp only [Release, hD]
    rw [if_pos h]
    exact ⟨rfl, rfl, hget⟩
  · intro h
    simp only [Release, hD]
    rw [if_neg h]
    split
    · split
      · exact releaseFinish_iff _ _ _
      · exact releaseFinish_iff _ _ _
    · exact releaseFinish_iff _ _ _

/-- Claim C2 witness: releasing the last reference with `force_erase` frees
the entry, and the return value is true accordingly. -/
theorem C2_witness :
    ((Release cfg0 stC2w (some 0) true 0).ret = true ↔
      (Release cfg0 stC2w (some 0) true 0).freed = [0]) ∧
    (Release cfg0 stC2w (some 0) true 0).ret = true := by
  have h := C2_release_amended cfg0 stC2w 0 true 0 eC2w (by decide)
  exact ⟨(h.2 (by decide)).1, by decide⟩

/-- Claim C1 counterexample: with `force = false` (`dontforce = true`) and a
tally row summing to zero while its cells are nonzero (+1 and -1 across two
threads), `CBHTable::Remove` succeeds and returns the entry but leaves the
tally cells untouched — "otherwise ... zeroes all tally cells for the
stamp" fails for the `force = false, refstmp = 0` case. -/
theorem C1_counterexample :
    tallyRowSum cfgC1 cC1.pool 0 = 0 ∧
    (CBHT_Remove cfgC1 cC1 heapC1 7 3 true).1 = some 0 ∧
    (CBHT_Remove cfgC1 cC1 heapC1 7 3 true).2.1.pool 0 = 1 ∧
    (CBHT_Remove cfgC1 cC1 heapC1 7 3 true).2.1.pool 1 = -1 := by
  refine ⟨by decide, by decide, by decide, by decide⟩

/-- Claim C1 amended: when Remove finds the entry (valid stamp `s`), it sums
the tally row into refstmp; with `force = false` and `refstmp ≠ 0` it
returns null and changes nothing; otherwise it adds refstmp to the entry's
refs clamped at zero, resets the stamp to -1, clears `in_auxiliary`,
releases the availability bit, unchains the entry and returns it — but the
tally cells are zeroed only when `force = true`; with `force = false` and
`refstmp = 0` they are left as they are (their sum being zero). -/
theorem C1_cbht_remove_amended (cfg : Config) (c : CBHTSt) (heap : Heap)
    (key hash : Nat) (dontforce : Bool) (id : EntryId) (e : LRUHandle) (s : Nat)
    (hfind : chainFind? heap c.chain key hash = some id)
    (hget : heapGet heap id = some e)
    (hstamp : e.DCAstamp = (s : Int)) (hs : s < auxCap cfg)
    (htc : e.DCAstamp_tc = ((s * cfg.threadcount : Nat) : Int)) :
    (dontforce = true ∧ tallyRowSum cfg c.pool (s * cfg.threadcount) ≠ 0 →
      CBHT_Remove cfg c heap key hash dontforce = (none, c, heap)) ∧
    (dontforce = false ∨ tallyRowSum cfg c.pool (s * cfg.threadcount) = 0 →
      (CBHT_Remove cfg c heap key hash dontforce).1 = some id ∧
      heapGet (CBHT_Remove cfg c heap key hash dontforce).2.2 id = some
        { e with
          refs :=
            if (e.refs : Int) + tallyRowSum cfg c.pool (s * cfg.threadcount) < 0 then 0
            else ((e.refs : Int) + tallyRowSum cfg c.pool (s * cfg.threadcount)).toNat
          DCAstamp := -1
          indca := false } ∧
      (CBHT_Remove cfg c heap key hash dontforce).2.1.pool (availindex cfg + s) = 0 ∧
      (CBHT_Remove cfg c heap key hash dontforce).2.1.chain = c.chain.erase id ∧
      (CBHT_Remove cfg c heap key hash dontforce).2.1.elems = c.elems - 1 ∧
      (dontforce = false → ∀ tid < cfg.threadcount,
        (CBHT_Remove cfg c heap key hash dontforce).2.1.pool
          (s * cfg.threadcount + tid) = 0) ∧
      (dontforce = true → ∀ n,
        (CBHT_Remove cfg c heap key hash dontforce).2.1.pool n =
          if n = availindex cfg + s then 0 else c.pool n)) := by
  have hD : heapGetD heap id = e := by simp [heapGetD, hget]
  have hcond : -1 < e.DCAstamp ∧ e.DCAstamp < (auxCap cfg : Int) := by
    rw [hstamp]
    constructor
    · omega
    · exact_mod_cast hs
  have htoNat : e.DCAstamp.toNat = s := by rw [hstamp]; exact Int.toNat_natCast s
  have htcNat : e.DCAstamp_tc.toNat = s * cfg.threadcount := by
    rw [htc]; exact Int.toNat_natCast _
  simp only [CBHT_Remove, hfind, hD]
  rw [if_pos hcond]
  simp only [htcNat, htoNat]
  constructor
  · rintro ⟨hdf, hne⟩
    subst hdf
    rw [if_pos ⟨rfl, hne⟩]
  · intro hor
    have hneg : ¬(dontforce = true ∧ tallyRowSum cfg c.pool (s * cfg.threadcount) ≠ 0) := by
      rcases hor with h | h
      · rintro ⟨h1, _⟩; rw [h] at h1; exact Bool.false_ne_true h1
      · rintro ⟨_, h2⟩; exact h2 h
    rw [if_neg hneg]
    refine ⟨rfl, ?_, ?_, rfl, rfl, ?_, ?_⟩
    · exact heapGet_heapSet_self heap id _
    · simp
    · intro hdf tid htid
      subst hdf
      have hlt : s * cfg.threadcount + tid < availindex cfg := by
        have : s + 1 ≤ auxCap cfg := hs
        calc s * cfg.threadcount + tid < s * cfg.threadcount + cfg.threadcount := by omega
        _ = (s + 1) * cfg.threadcount := by ring
        _ ≤ auxCap cfg * cfg.threadcount := Nat.mul_le_mul_right _ hs
        _ = availindex cfg := rfl
      have hne2 : s * cfg.threadcount + tid ≠ availindex cfg + s := by omega
      simp only [Bool.false_eq_true, if_false, if_neg hne2]
      rw [if_pos ⟨Nat.le_add_right _ _, by omega⟩]
    · intro hdf n
      subst hdf
      simp

/-- Claim C1 witness: a forced remove on a row with net tally +5 succeeds,
zeroes the row and releases the availability bit. -/
theorem C1_witness :
    (CBHT_Remove cfgC1 cC1w heapC1 7 3 false).1 = some 0 ∧
    (CBHT_Remove cfgC1 cC1w heapC1 7 3 false).2.1.pool 0 = 0 ∧
    (CBHT_Remove cfgC1 cC1w heapC1 7 3 false).2.1.pool (availindex cfgC1 + 0) = 0 := by
  have h := C1_cbht_remove_amended cfgC1 cC1w heapC1 7 3 false 0 eC1 0
    (by decide) (by decide) (by decide) (by decide) (by decide)
  have h2 := h.2 (Or.inl rfl)
  refine ⟨h2.1, ?_, h2.2.2.1⟩
  have := h2.2.2.2.2.2.1 rfl 0 (by decide)
  simpa using this

theorem lookupSecondary_auxDone (cfg : Config) (st : ShardState)
    (mainResult : Option EntryId) (auxDone : Bool) (key hash : Nat)
    (hp sc secc wait : Bool) (so : Option (Option Nat × Nat)) (pr : Bool) (tid : Nat) :
    (lookupSecondary cfg st mainResult auxDone key hash hp sc secc wait so pr
      tid).auxLookupDone = auxDone := by
  rcases mainResult with _ | id
  · rcases so with _ | vs <;>
      · unfold lookupSecondary
        dsimp only
        split_ifs <;> rfl
  · rfl

theorem lookupSecondary_consulted (cfg : Config) (st : ShardState)
    (mainResult : Option EntryId) (auxDone : Bool) (key hash : Nat)
    (hp sc secc wait : Bool) (so : Option (Option Nat × Nat)) (pr : Bool) (tid : Nat) :
    ((lookupSecondary cfg st mainResult auxDone key hash hp sc secc wait so pr
        tid).secondaryConsulted = true ↔
      (mainResult = none ∧ secc = true ∧ hp = true ∧ sc = true)) := by
  rcases mainResult with _ | id
  · rcases so with _ | vs <;>
      · unfold lookupSecondary
        dsimp only
        split_ifs <;> simp_all
  · simp [lookupSecondary]

theorem lookupSlow_result (cfg : Config) (st : ShardState) (key hash hs mytid : Nat) :
    (lookupSlow cfg st key hash hs mytid).1 = table_Lookup st.heap st.table key hash := by
  unfold lookupSlow
  cases h : table_Lookup st.heap st.table key hash <;> simp [h]

/-- Claim C7 counterexample: with the auxiliary index active for the shard
but the key absent from the primary table, the fast-path auxiliary lookup
is not performed (the negative filter returns null first) and the
configured secondary cache is not consulted either; and on the
`CBHTturnoff = 0` slow path a primary miss with a configured secondary
cache but no helper is also not consulted. -/
theorem C7_counterexample :
    auxActive cfgT50 st7a 10 = true ∧
    (LRUCacheShard_Lookup cfgT50 st7a 1 10 true true true true none false
      0).auxLookupDone = false ∧
    (LRUCacheShard_Lookup cfgT50 st7a 1 10 true true true true none false
      0).result = none ∧
    (LRUCacheShard_Lookup cfgT50 st7a 1 10 true true true true none false
      0).secondaryConsulted = false ∧
    (LRUCacheShard_Lookup cfg0 (emptyShard 100 false) 1 10 false true true true
      none false 0).secondaryConsulted = false := by
  refine ⟨by decide, by decide, by decide, by decide, by decide⟩

/-- Claim C7 amended: the auxiliary-index lookup is performed iff the index
is active for the shard AND the key is present in the primary table (the
negative filter runs first whenever `CBHTturnoff ≠ 0` and returns null on a
primary miss without reaching the auxiliary or the secondary cache); the
secondary cache is consulted exactly on a primary miss with
`CBHTturnoff = 0`, a configured secondary cache, and a helper with a save
callback — consultation happens after the mutex block. -/
theorem C7_lookup_amended (cfg : Config) (st : ShardState) (key hash : Nat)
    (helperPresent savetoCb secondaryConfigured wait : Bool)
    (secOracle : Option (Option Nat × Nat)) (priority : Bool) (mytid : Nat) :
    ((LRUCacheShard_Lookup cfg st key hash helperPresent savetoCb
        secondaryConfigured wait secOracle priority mytid).auxLookupDone = true ↔
      (auxActive cfg st hash = true ∧
        (table_Lookup st.heap st.table key hash).isSome = true)) ∧
    (cfg.CBHTturnoff ≠ 0 → table_Lookup st.heap st.table key hash = none →
      (LRUCacheShard_Lookup cfg st key hash helperPresent savetoCb
        secondaryConfigured wait secOracle priority mytid).result = none ∧
      (LRUCacheShard_Lookup cfg st key hash helperPresent savetoCb
        secondaryConfigured wait secOracle priority mytid).secondaryConsulted = false) ∧
    ((LRUCacheShard_Lookup cfg st key hash helperPresent savetoCb
        secondaryConfigured wait secOracle priority mytid).secondaryConsulted = true ↔
      (table_Lookup st.heap st.table key hash = none ∧ cfg.CBHTturnoff = 0 ∧
        secondaryConfigured = true ∧ helperPresent = true ∧ savetoCb = true)) := by
  by_cases ht : cfg.CBHTturnoff = 0
  · have hred : LRUCacheShard_Lookup cfg st key hash helperPresent savetoCb
        secondaryConfigured wait secOracle priority mytid =
        lookupSecondary cfg
          (lookupSlow cfg st key hash (hashShardIdx cfg hash) mytid).2
          (lookupSlow cfg st key hash (hashShardIdx cfg hash) mytid).1 false key hash
          helperPresent savetoCb secondaryConfigured wait secOracle priority mytid := by
      simp only [LRUCacheShard_Lookup]
      rw [if_neg (not_not_intro ht)]
    rw [hred]
    refine ⟨?_, ?_, ?_⟩
    · rw [lookupSecondary_auxDone]
      simp [auxActive, ht]
    · intro h
      exact absurd ht h
    · rw [lookupSecondary_consulted, lookupSlow_result]
      simp [ht]
  · cases hprim : table_Lookup st.heap st.table key hash with
    | none =>
      have hred : LRUCacheShard_Lookup cfg st key hash helperPresent savetoCb
          secondaryConfigured wait secOracle priority mytid =
          ⟨none, false, false, st⟩ := by
        simp only [LRUCacheShard_Lookup]
        rw [if_pos ht, hprim]
      rw [hred]
      refine ⟨?_, ?_, ?_⟩
      · simp [hprim]
      · intro _ _
        exact ⟨rfl, rfl⟩
      · simp [ht]
    | some pid =>
      by_cases hstate : st.g.CBHTState (hashShardIdx cfg hash) ∨ cfg.CBHTturnoff = 100
      · cases hcl : (CBHT_Lookup cfg st.cbht st.heap key hash mytid).1 with
        | some id =>
          refine ⟨?_, ?_, ?_⟩
          · simp only [LRUCacheShard_Lookup]
            rw [if_pos ht, hprim]
            simp only [if_pos hstate, hcl]
            simp [auxActive, ht, hstate, hprim]
          · intro _ h
            exact absurd h (Option.some_ne_none _)
          · simp only [LRUCacheShard_Lookup]
            rw [if_pos ht, hprim]
            simp only [if_pos hstate, hcl]
            simp [hprim]
        | none =>
          refine ⟨?_, ?_, ?_⟩
          · simp only [LRUCacheShard_Lookup]
            rw [if_pos ht, hprim]
            simp only [if_pos hstate, hcl]
            rw [lookupSecondary_auxDone]
            simp [auxActive, ht, hstate, hprim]
          · intro _ h
            exact absurd h (Option.some_ne_none _)
          · simp only [LRUCacheShard_Lookup]
            rw [if_pos ht, hprim]
            simp only [if_pos hstate, hcl]
            rw [lookupSecondary_consulted, lookupSlow_result]
            simp [hprim, ht]
      · refine ⟨?_, ?_, ?_⟩
        · simp only [LRUCacheShard_Lookup]
          rw [if_pos ht, hprim]
          simp only [if_neg hstate]
          rw [lookupSecondary_auxDone]
          simp only [Bool.false_eq_true, false_iff]
          rintro ⟨ha, _⟩
          simp only [auxActive, decide_eq_true_eq] at ha
          exact hstate ha.2
        · intro _ h
          exact absurd h (Option.some_ne_none _)
        · simp only [LRUCacheShard_Lookup]
          rw [if_pos ht, hprim]
          simp only [if_neg hstate]
          rw [lookupSecondary_consulted, lookupSlow_result]
          simp [hprim, ht]
theorem pairKeyDistinct_nodup (heap : Heap) (l : List EntryId)
    (h : pairKeyDistinct heap l) : l.Nodup := by
  refine h.imp ?_
  intro i j hij
  rintro rfl
  rcases hij with h1 | h1 <;> exact h1 rfl

theorem pairKeyDistinct_congr (h h' : Heap) (l : List EntryId)
    (hk : ∀ i, (heapGetD h' i).key = (heapGetD h i).key ∧
      (heapGetD h' i).hash = (heapGetD h i).hash)
    (hp : pairKeyDistinct h l) : pairKeyDistinct h' l := by
  refine hp.imp ?_
  intro i j hij
  rw [(hk i).1, (hk j).1, (hk i).2, (hk j).2]
  exact hij

theorem chainFind?_unique (heap : Heap) (chain : List EntryId) (id : EntryId)
    (e : LRUHandle) (hd : pairKeyDistinct heap chain) (hmem : id ∈ chain)
    (hget : heapGet heap id = some e) :
    chainFind? heap chain e.key e.hash = some id := by
  have hD : heapGetD heap id = e := by simp [heapGetD, hget]
  induction chain with
  | nil => cases hmem
  | cons a tl ih =>
    rw [pairKeyDistinct, List.pairwise_cons] at hd
    unfold chainFind?
    rcases List.mem_cons.mp hmem with rfl | hmem'
    · rw [List.find?_cons_of_pos]
      simp [hget]
    · rw [List.find?_cons_of_neg]
      · exact ih hd.2 hmem'
      · have hrel := hd.1 id hmem'
        rw [hD] at hrel
        cases hga : heapGet heap a with
        | none => simp [hga]
        | some ea =>
          have hDa : heapGetD heap a = ea := by simp [heapGetD, hga]
          rw [hDa] at hrel
          simp only [hga, Bool.and_eq_true, beq_iff_eq, not_and]
          intro hh hk
          rcases hrel with h1 | h1
          · exact h1 hk
          · exact h1 hh

theorem LRU_Remove_preserves (st : ShardState) (id : EntryId) :
    (LRU_Remove st id).heap = st.heap ∧ (LRU_Remove st id).table = st.table ∧
    (LRU_Remove st id).tableElems = st.tableElems ∧
    (LRU_Remove st id).cbht = st.cbht ∧ (LRU_Remove st id).usage = st.usage ∧
    (LRU_Remove st id).capacity = st.capacity ∧
    (LRU_Remove st id).strictCapacityLimit = st.strictCapacityLimit ∧
    (LRU_Remove st id).nextId = st.nextId ∧ (LRU_Remove st id).g = st.g := by
  unfold LRU_Remove
  split <;> exact ⟨rfl, rfl, rfl, rfl, rfl, rfl, rfl, rfl, rfl⟩

theorem LRU_Remove_lru_head (st : ShardState) (id : EntryId) (t : List EntryId)
    (hlru : st.lru = id :: t) : (LRU_Remove st id).lru = t := by
  unfold LRU_Remove
  rw [if_pos (by rw [hlru]; exact List.mem_cons_self _ _)]
  show st.lru.erase id = t
  rw [hlru, List.erase_cons_head]

/-- A forced `CBHTable::Remove` of a found entry with an in-range stamp
always succeeds: it returns the entry, unchains it, decrements `elems`, and
rewrites the entry in place with refs adjusted, stamp -1 and `indca`
cleared — key, hash and charge untouched. -/
theorem CBHT_Remove_force_spec (cfg : Config) (c : CBHTSt) (heap : Heap)
    (key hash : Nat) (id : EntryId) (e : LRUHandle)
    (hfind : chainFind? heap c.chain key hash = some id)
    (hget : heapGet heap id = some e)
    (hst : -1 < e.DCAstamp ∧ e.DCAstamp < (auxCap cfg : Int)) :
    ∃ (e' : LRUHandle) (pool' : Nat → Int),
      CBHT_Remove cfg c heap key hash false =
        (some id,
         { c with pool := pool', chain := c.chain.erase id, elems := c.elems - 1 },
         heapSet heap id e') ∧
      e'.key = e.key ∧ e'.hash = e.hash ∧ e'.charge = e.charge ∧
      e'.indca = false ∧ e'.value = e.value := by
  have hD : heapGetD heap id = e := by simp [heapGetD, hget]
  refine ⟨{ e with
      refs := if (e.refs : Int) + tallyRowSum cfg c.pool e.DCAstamp_tc.toNat < 0 then 0
        else ((e.refs : Int) + tallyRowSum cfg c.pool e.DCAstamp_tc.toNat).toNat
      DCAstamp := -1
      indca := false },
    fun n => if n = availindex cfg + e.DCAstamp.toNat then 0
      else if e.DCAstamp_tc.toNat ≤ n ∧ n < e.DCAstamp_tc.toNat + cfg.threadcount then 0
      else c.pool n,
    ?_, rfl, rfl, rfl, rfl, rfl⟩
  simp only [CBHT_Remove, hfind, hD]
  rw [if_pos hst, if_neg (by simp)]
  simp

/-- Specification of `evictFinish`: with distinct table keys and the entry
present, the entry is erased from the table, rewritten in place with
`in_cache` cleared, and its charge subtracted from usage; all other shard
components are untouched. -/
theorem evictFinish_spec (st2 : ShardState) (oldId : EntryId) (e2 : LRUHandle)
    (hget2 : heapGet st2.heap oldId = some e2)
    (hpair : pairKeyDistinct st2.heap st2.table)
    (hmem : oldId ∈ st2.table) :
    evictFinish st2 oldId = { st2 with
      table := st2.table.erase oldId
      tableElems := st2.tableElems - 1
      heap := heapSet st2.heap oldId { e2 with inCache := false }
      usage := st2.usage - e2.charge } := by
  have hD2 : heapGetD st2.heap oldId = e2 := by simp [heapGetD, hget2]
  have hfind := chainFind?_unique st2.heap st2.table oldId e2 hpair hmem hget2
  simp only [evictFinish, table_Remove, hD2, hfind, calcTotalCharge]

/-- The auxiliary-removal stage of `evictStep`: after `LRU_Remove`, the
state reaching `evictFinish` has the LRU tail dropped, the entry gone from
the auxiliary chain (removed when its `indca` flag was set, never there
otherwise), all other components untouched and all other heap cells
untouched; the entry itself keeps its key, hash and charge. -/
theorem evictStep_mid (cfg : Config) (st : ShardState) (oldId : EntryId)
    (t : List EntryId) (hwf : WF4 cfg st) (hlru : st.lru = oldId :: t) :
    ∃ (st2 : ShardState) (e2 : LRUHandle),
      evictStep cfg st oldId = evictFinish st2 oldId ∧
      heapGet st2.heap oldId = some e2 ∧
      e2.key = (heapGetD st.heap oldId).key ∧
      e2.hash = (heapGetD st.heap oldId).hash ∧
      e2.charge = (heapGetD st.heap oldId).charge ∧
      st2.lru = t ∧ st2.table = st.table ∧ st2.tableElems = st.tableElems ∧
      st2.capacity = st.capacity ∧
      st2.strictCapacityLimit = st.strictCapacityLimit ∧
      st2.nextId = st.nextId ∧ st2.usage = st.usage ∧
      (∀ i, i ≠ oldId → heapGet st2.heap i = heapGet st.heap i) ∧
      st2.cbht.chain.Sublist st.cbht.chain ∧
      oldId ∉ st2.cbht.chain ∧
      (∀ i, i ≠ oldId → (i ∈ st2.cbht.chain ↔ i ∈ st.cbht.chain)) := by
  obtain ⟨hwt, hwc, hwn, hwh, hws, hwi, hwni⟩ := hwf
  have hmem : oldId ∈ st.lru := by rw [hlru]; exact List.mem_cons_self _ _
  have hsome := hwh oldId hmem
  obtain ⟨e, hget⟩ := Option.isSome_iff_exists.mp hsome
  have hD : heapGetD st.heap oldId = e := by simp [heapGetD, hget]
  obtain ⟨p1, p2, p3, p4, p5, p6, p7, p8, p9⟩ := LRU_Remove_preserves st oldId
  have hlru1 := LRU_Remove_lru_head st oldId t hlru
  have he1 : heapGetD (LRU_Remove st oldId).heap oldId = e := by rw [p1, hD]
  by_cases hbr : cfg.CBHTturnoff ≠ 0 ∧
      (heapGetD (LRU_Remove st oldId).heap oldId).indca = true
  · have hin : (heapGetD st.heap oldId).indca = true := by
      rw [hD]
      rw [he1] at hbr
      exact hbr.2
    obtain ⟨hto, hchain, hs0, hs1⟩ := hwi oldId hmem hin
    rw [hD] at hs0 hs1
    have hfind := chainFind?_unique st.heap st.cbht.chain oldId e hwc hchain hget
    obtain ⟨e', pool', hr, hk', hh', hc', hi', hv'⟩ :=
      CBHT_Remove_force_spec cfg st.cbht st.heap e.key e.hash oldId e hfind hget
        ⟨by omega, hs1⟩
    have hrd : CBHT_RemoveDefault cfg (LRU_Remove st oldId).cbht
        (LRU_Remove st oldId).heap (heapGetD (LRU_Remove st oldId).heap oldId).key
        (heapGetD (LRU_Remove st oldId).heap oldId).hash =
        (some oldId,
         { st.cbht with
            pool := pool'
            chain := st.cbht.chain.erase oldId
            elems := st.cbht.elems - 1 },
         heapSet st.heap oldId e') := by
      unfold CBHT_RemoveDefault
      rw [p1, p4, hD]
      exact hr
    have hnodc := pairKeyDistinct_nodup st.heap st.cbht.chain hwc
    refine ⟨{ LRU_Remove st oldId with
        cbht := (CBHT_RemoveDefault cfg (LRU_Remove st oldId).cbht
          (LRU_Remove st oldId).heap
          (heapGetD (LRU_Remove st oldId).heap oldId).key
          (heapGetD (LRU_Remove st oldId).heap oldId).hash).2.1
        heap := (CBHT_RemoveDefault cfg (LRU_Remove st oldId).cbht
          (LRU_Remove st oldId).heap
          (heapGetD (LRU_Remove st oldId).heap oldId).key
          (heapGetD (LRU_Remove st oldId).heap oldId).hash).2.2 }, e',
      ?_, ?_, ?_, ?_, ?_, ?_, ?_, ?_, ?_, ?_, ?_, ?_, ?_, ?_, ?_, ?_⟩
    · show evictStep cfg st oldId = _
      simp only [evictStep]
      rw [if_pos hbr]
    · show heapGet (CBHT_RemoveDefault _ _ _ _ _).2.2 oldId = some e'
      rw [hrd]
      exact heapGet_heapSet_self _ _ _
    · rw [hk', hD]
    · rw [hh', hD]
    · rw [hc', hD]
    · exact hlru1
    · exact p2
    · exact p3
    · exact p6
    · exact p7
    · exact p8
    · exact p5
    · intro i hi
      show heapGet (CBHT_RemoveDefault _ _ _ _ _).2.2 i = _
      rw [hrd]
      exact heapGet_heapSet_ne _ _ _ _ hi
    · show ((CBHT_RemoveDefault _ _ _ _ _).2.1).chain.Sublist _
      rw [hrd]
      exact List.erase_sublist _ _
    · show oldId ∉ ((CBHT_RemoveDefault _ _ _ _ _).2.1).chain
      rw [hrd]
      intro hmem2
      exact ((hnodc.mem_erase_iff.mp hmem2).1) rfl
    · intro i hi
      show i ∈ ((CBHT_RemoveDefault _ _ _ _ _).2.1).chain ↔ _
      rw [hrd]
      exact hnodc.mem_erase_iff.trans (by simp [hi])
  · have hnotin : oldId ∉ st.cbht.chain := by
      by_cases hin : (heapGetD st.heap oldId).indca = true
      · obtain ⟨hto, _, _, _⟩ := hwi oldId hmem hin
        exact absurd ⟨hto, by rwa [he1, ← hD]⟩ hbr
      · exact hwni oldId hmem (by simpa using hin)
    refine ⟨LRU_Remove st oldId, e, ?_, ?_, ?_, ?_, ?_, hlru1, p2, p3, p6, p7, p8,
      p5, ?_, ?_, ?_, ?_⟩
    · show evictStep cfg st oldId = _
      simp only [evictStep]
      rw [if_neg hbr]
    · rw [p1]; exact hget
    · rw [hD]
    · rw [hD]
    · rw [hD]
    · intro i _
      rw [p1]
    · rw [p4]
    · rw [p4]; exact hnotin
    · intro i _
      rw [p4]

/-- Full specification of one eviction-loop iteration: the LRU tail is
dropped, the entry leaves both tables, gets `in_cache` cleared, keeps its
key/hash/charge, its charge leaves the usage, every other heap cell is
untouched, and well-formedness is preserved. -/
theorem evictStep_spec (cfg : Config) (st : ShardState) (oldId : EntryId)
    (t : List EntryId) (hwf : WF4 cfg st) (hlru : st.lru = oldId :: t) :
    (evictStep cfg st oldId).lru = t ∧
    (evictStep cfg st oldId).capacity = st.capacity ∧
    (evictStep cfg st oldId).strictCapacityLimit = st.strictCapacityLimit ∧
    (evictStep cfg st oldId).nextId = st.nextId ∧
    (∀ i, i ≠ oldId → heapGet (evictStep cfg st oldId).heap i = heapGet st.heap i) ∧
    (∀ i, (heapGet (evictStep cfg st oldId).heap i).isSome = (heapGet st.heap i).isSome ∧
      (heapGetD (evictStep cfg st oldId).heap i).key = (heapGetD st.heap i).key ∧
      (heapGetD (evictStep cfg st oldId).heap i).hash = (heapGetD st.heap i).hash ∧
      (heapGetD (evictStep cfg st oldId).heap i).charge = (heapGetD st.heap i).charge) ∧
    (evictStep cfg st oldId).table = st.table.erase oldId ∧
    (evictStep cfg st oldId).cbht.chain.Sublist st.cbht.chain ∧
    oldId ∉ (evictStep cfg st oldId).cbht.chain ∧
    (∀ i, i ≠ oldId → (i ∈ (evictStep cfg st oldId).cbht.chain ↔ i ∈ st.cbht.chain)) ∧
    (heapGetD (evictStep cfg st oldId).heap oldId).inCache = false ∧
    (heapGet (evictStep cfg st oldId).heap oldId).isSome = true ∧
    (evictStep cfg st oldId).usage = st.usage - calcTotalCharge (heapGetD st.heap oldId) ∧
    WF4 cfg (evictStep cfg st oldId) := by
  obtain ⟨st2, e2, hEq, hget2, hk2, hh2, hc2, hl2, htb2, hte2, hcap2, hstr2, hnx2,
    hus2, hpres2, hsub2, hnot2, hiff2⟩ := evictStep_mid cfg st oldId t hwf hlru
  obtain ⟨hwt, hwc, hwn, hwh, hws, hwi, hwni⟩ := hwf
  have hmem : oldId ∈ st.lru := by rw [hlru]; exact List.mem_cons_self _ _
  have hkeys : ∀ i, (heapGet st2.heap i).isSome = (heapGet st.heap i).isSome ∧
      (heapGetD st2.heap i).key = (heapGetD st.heap i).key ∧
      (heapGetD st2.heap i).hash = (heapGetD st.heap i).hash ∧
      (heapGetD st2.heap i).charge = (heapGetD st.heap i).charge := by
    intro i
    by_cases hio : i = oldId
    · subst hio
      have hDi : heapGetD st2.heap i = e2 := by simp [heapGetD, hget2]
      refine ⟨?_, ?_, ?_, ?_⟩
      · simp [hget2, hwh i hmem]
      · rw [hDi]; exact hk2
      · rw [hDi]; exact hh2
      · rw [hDi]; exact hc2
    · have hpr := hpres2 i hio
      exact ⟨by rw [hpr], by simp [heapGetD, hpr], by simp [heapGetD, hpr],
        by simp [heapGetD, hpr]⟩
  have hpt2 : pairKeyDistinct st2.heap st2.table := by
    rw [htb2]
    exact pairKeyDistinct_congr st.heap st2.heap st.table
      (fun i => ⟨(hkeys i).2.1, (hkeys i).2.2.1⟩) hwt
  have hmem2 : oldId ∈ st2.table := by rw [htb2]; exact hws oldId hmem
  have hfin := evictFinish_spec st2 oldId e2 hget2 hpt2 hmem2
  rw [hEq, hfin]
  have hallGet : ∀ i, i ≠ oldId →
      heapGet (heapSet st2.heap oldId { e2 with inCache := false }) i =
        heapGet st.heap i := by
    intro i hi
    rw [heapGet_heapSet_ne _ _ _ _ hi]
    exact hpres2 i hi
  have hgetR : heapGet (heapSet st2.heap oldId { e2 with inCache := false }) oldId =
      some { e2 with inCache := false } := heapGet_heapSet_self _ _ _
  have hallKeys : ∀ i,
      (heapGet (heapSet st2.heap oldId { e2 with inCache := false }) i).isSome =
        (heapGet st.heap i).isSome ∧
      (heapGetD (heapSet st2.heap oldId { e2 with inCache := false }) i).key =
        (heapGetD st.heap i).key ∧
      (heapGetD (heapSet st2.heap oldId { e2 with inCache := false }) i).hash =
        (heapGetD st.heap i).hash ∧
      (heapGetD (heapSet st2.heap oldId { e2 with inCache := false }) i).charge =
        (heapGetD st.heap i).charge := by
    intro i
    by_cases hio : i = oldId
    · subst hio
      refine ⟨?_, ?_, ?_, ?_⟩
      · simp [hgetR, hwh i hmem]
      · simp only [heapGetD, hgetR, Option.getD_some]
        exact hk2
      · simp only [heapGetD, hgetR, Option.getD_some]
        exact hh2
      · simp only [heapGetD, hgetR, Option.getD_some]
        exact hc2
    · have hpr := hallGet i hio
      exact ⟨by rw [hpr], by simp [heapGetD, hpr], by simp [heapGetD, hpr],
        by simp [heapGetD, hpr]⟩
  have hnodt : oldId ∉ t := (List.nodup_cons.mp (hlru ▸ hwn)).1
  have htnodup : t.Nodup := (List.nodup_cons.mp (hlru ▸ hwn)).2
  refine ⟨hl2, hcap2, hstr2, hnx2, hallGet, hallKeys, ?_, hsub2, hnot2, hiff2,
    ?_, ?_, ?_, ?_⟩
  · show st2.table.erase oldId = st.table.erase oldId
    rw [htb2]
  · show (heapGetD (heapSet st2.heap oldId { e2 with inCache := false }) oldId).inCache = false
    simp [heapGetD, hgetR]
  · show (heapGet (heapSet st2.heap oldId { e2 with inCache := false }) oldId).isSome = true
    simp [hgetR]
  · show st2.usage - e2.charge = st.usage - calcTotalCharge (heapGetD st.heap oldId)
    rw [hus2]
    unfold calcTotalCharge
    rw [hc2]
  · refine ⟨?_, ?_, ?_, ?_, ?_, ?_, ?_⟩
    · show pairKeyDistinct _ (st2.table.erase oldId)
      exact (pairKeyDistinct_congr st.heap _ st2.table
        (fun i => ⟨(hallKeys i).2.1, (hallKeys i).2.2.1⟩)
        (htb2 ▸ hwt)).sublist (List.erase_sublist _ _)
    · show pairKeyDistinct _ st2.cbht.chain
      exact (pairKeyDistinct_congr st.heap _ st.cbht.chain
        (fun i => ⟨(hallKeys i).2.1, (hallKeys i).2.2.1⟩) hwc).sublist hsub2
    · show st2.lru.Nodup
      rw [hl2]
      exact htnodup
    · intro id hid
      have hid' : id ∈ t := by rw [← hl2]; exact hid
      show (heapGet (heapSet st2.heap oldId { e2 with inCache := false }) id).isSome = true
      rw [(hallKeys id).1]
      exact hwh id (by rw [hlru]; exact List.mem_cons_of_mem _ hid')
    · intro id hid
      have hid' : id ∈ t := by rw [← hl2]; exact hid
      show id ∈ st2.table.erase oldId
      rw [htb2]
      have hne : id ≠ oldId := fun heq => hnodt (heq ▸ hid')
      exact (List.mem_erase_of_ne hne).mpr
        (hws id (by rw [hlru]; exact List.mem_cons_of_mem _ hid'))
    · intro id hid hin
      have hid' : id ∈ t := by rw [← hl2]; exact hid
      have hne : id ≠ oldId := fun heq => hnodt (heq ▸ hid')
      have hprD : heapGetD (heapSet st2.heap oldId { e2 with inCache := false }) id =
          heapGetD st.heap id := by
        simp [heapGetD, hallGet id hne]
      have hin2 : (heapGetD st.heap id).indca = true := by rw [← hprD]; exact hin
      obtain ⟨hto, hch, hb0, hb1⟩ :=
        hwi id (by rw [hlru]; exact List.mem_cons_of_mem _ hid') hin2
      refine ⟨hto, ?_, ?_, ?_⟩
      · show id ∈ st2.cbht.chain
        exact (hiff2 id hne).mpr hch
      · show (0 : Int) ≤ (heapGetD (heapSet st2.heap oldId { e2 with inCache := false }) id).DCAstamp
        rw [hprD]
        exact hb0
      · show (heapGetD (heapSet st2.heap oldId { e2 with inCache := false }) id).DCAstamp < (auxCap cfg : Int)
        rw [hprD]
        exact hb1
    · intro id hid hin
      have hid' : id ∈ t := by rw [← hl2]; exact hid
      have hne : id ≠ oldId := fun heq => hnodt (heq ▸ hid')
      have hprD : heapGetD (heapSet st2.heap oldId { e2 with inCache := false }) id =
          heapGetD st.heap id := by
        simp [heapGetD, hallGet id hne]
      have hin2 : (heapGetD st.heap id).indca = false := by rw [← hprD]; exact hin
      intro hinc
      exact hwni id (by rw [hlru]; exact List.mem_cons_of_mem _ hid') hin2
        ((hiff2 id hne).mp hinc)

theorem chargeSumOf_congr (h h' : Heap) (l : List EntryId)
    (hc : ∀ i, (heapGetD h' i).charge = (heapGetD h i).charge) :
    chargeSumOf h' l = chargeSumOf h l := by
  unfold chargeSumOf
  congr 1
  apply List.map_congr_left
  intro i _
  unfold calcTotalCharge
  exact hc i

/-- Specification of the fuelled eviction loop: well-formedness, capacity,
strictness and fresh-id counter are preserved; the initial LRU splits into
the eviction list followed by the remaining LRU; the evicted charges leave
the usage; tables only shrink; heap cells off the LRU are untouched and
key/hash/charge of every cell survive; every evicted entry is out of the
LRU, both tables, still allocated with `in_cache` cleared; and with enough
fuel the loop ends under capacity or with an empty LRU. -/
theorem evictAux_spec (cfg : Config) (charge : Nat) :
    ∀ (fuel : Nat) (st : ShardState), WF4 cfg st →
      WF4 cfg (EvictFromLRUAux cfg charge st fuel).1 ∧
      (EvictFromLRUAux cfg charge st fuel).1.capacity = st.capacity ∧
      (EvictFromLRUAux cfg charge st fuel).1.strictCapacityLimit =
        st.strictCapacityLimit ∧
      (EvictFromLRUAux cfg charge st fuel).1.nextId = st.nextId ∧
      st.lru = (EvictFromLRUAux cfg charge st fuel).2 ++
        (EvictFromLRUAux cfg charge st fuel).1.lru ∧
      (EvictFromLRUAux cfg charge st fuel).1.usage =
        st.usage - chargeSumOf st.heap (EvictFromLRUAux cfg charge st fuel).2 ∧
      (EvictFromLRUAux cfg charge st fuel).1.table ⊆ st.table ∧
      (EvictFromLRUAux cfg charge st fuel).1.cbht.chain ⊆ st.cbht.chain ∧
      (∀ i, i ∉ st.lru →
        heapGet (EvictFromLRUAux cfg charge st fuel).1.heap i = heapGet st.heap i) ∧
      (∀ i, (heapGet (EvictFromLRUAux cfg charge st fuel).1.heap i).isSome =
          (heapGet st.heap i).isSome ∧
        (heapGetD (EvictFromLRUAux cfg charge st fuel).1.heap i).key =
          (heapGetD st.heap i).key ∧
        (heapGetD (EvictFromLRUAux cfg charge st fuel).1.heap i).hash =
          (heapGetD st.heap i).hash ∧
        (heapGetD (EvictFromLRUAux cfg charge st fuel).1.heap i).charge =
          (heapGetD st.heap i).charge) ∧
      (∀ id ∈ (EvictFromLRUAux cfg charge st fuel).2,
        id ∉ (EvictFromLRUAux cfg charge st fuel).1.lru ∧
        id ∉ (EvictFromLRUAux cfg charge st fuel).1.table ∧
        id ∉ (EvictFromLRUAux cfg charge st fuel).1.cbht.chain ∧
        (heapGet (EvictFromLRUAux cfg charge st fuel).1.heap id).isSome = true ∧
        (heapGetD (EvictFromLRUAux cfg charge st fuel).1.heap id).inCache = false) ∧
      (st.lru.length ≤ fuel →
        (EvictFromLRUAux cfg charge st fuel).1.usage + charge ≤ st.capacity ∨
        (EvictFromLRUAux cfg charge st fuel).1.lru = []) := by
  intro fuel
  induction fuel with
  | zero =>
    intro st hwf
    refine ⟨hwf, rfl, rfl, rfl, rfl, ?_, fun _ h => h, fun _ h => h,
      fun _ _ => rfl, fun _ => ⟨rfl, rfl, rfl, rfl⟩, ?_, ?_⟩
    · show st.usage = st.usage - chargeSumOf st.heap []
      simp [chargeSumOf]
    · intro id hid
      cases hid
    · intro h
      right
      exact List.length_eq_zero.mp (Nat.le_zero.mp h)
  | succ n ih =>
    intro st hwf
    by_cases hover : st.usage + charge > st.capacity
    · cases hl : st.lru with
      | nil =>
        have hred : EvictFromLRUAux cfg charge st (n + 1) = (st, []) := by
          simp only [EvictFromLRUAux]
          rw [if_pos hover, hl]
          rfl
        rw [hred]
        refine ⟨hwf, rfl, rfl, rfl, by simp only [List.nil_append]; exact hl.symm, ?_,
          fun _ h => h, fun _ h => h, fun _ _ => rfl, fun _ => ⟨rfl, rfl, rfl, rfl⟩,
          ?_, ?_⟩
        · show st.usage = st.usage - chargeSumOf st.heap []
          simp [chargeSumOf]
        · intro id hid
          cases hid
        · intro _
          right
          exact hl
      | cons oldId t =>
        have hred : EvictFromLRUAux cfg charge st (n + 1) =
            ((EvictFromLRUAux cfg charge (evictStep cfg st oldId) n).1,
             oldId :: (EvictFromLRUAux cfg charge (evictStep cfg st oldId) n).2) := by
          simp only [EvictFromLRUAux]
          rw [if_pos hover, hl]
          rfl
        obtain ⟨s1, s2, s3, s4, s5, s6, s7, s8, s9, s10, s11, s12, s13, s14⟩ :=
          evictStep_spec cfg st oldId t hwf hl
        obtain ⟨iA, iB, iC, iD, iE, iF, iG, iH, iI, iJ, iK, iL⟩ :=
          ih (evictStep cfg st oldId) s14
        have hnodt : oldId ∉ t := by
          have := hwf.2.2.1
          rw [hl] at this
          exact (List.nodup_cons.mp this).1
        have hwtN : pairKeyDistinct st.heap st.table := hwf.1
        rw [hred]
        refine ⟨iA, iB.trans s2, iC.trans s3, iD.trans s4, ?_, ?_, ?_, ?_, ?_, ?_,
          ?_, ?_⟩
        · rw [List.cons_append]
          exact congrArg (oldId :: ·) (s1.symm.trans iE)
        · show (EvictFromLRUAux cfg charge (evictStep cfg st oldId) n).1.usage =
            st.usage - chargeSumOf st.heap (oldId ::
              (EvictFromLRUAux cfg charge (evictStep cfg st oldId) n).2)
          have hcongr := chargeSumOf_congr st.heap (evictStep cfg st oldId).heap
            (EvictFromLRUAux cfg charge (evictStep cfg st oldId) n).2
            (fun i => (s6 i).2.2.2)
          have hcons : chargeSumOf st.heap (oldId ::
              (EvictFromLRUAux cfg charge (evictStep cfg st oldId) n).2) =
              calcTotalCharge (heapGetD st.heap oldId) + chargeSumOf st.heap
                (EvictFromLRUAux cfg charge (evictStep cfg st oldId) n).2 := by
            simp [chargeSumOf]
          rw [iF, hcongr, s13, hcons, Nat.sub_sub]
        · intro x hx
          have := iG hx
          rw [s7] at this
          exact (List.erase_sublist _ _).subset this
        · intro x hx
          exact s8.subset (iH hx)
        · intro i hi
          have hine : i ≠ oldId := fun heq => hi (by rw [heq]; exact List.mem_cons_self _ _)
          have hint : i ∉ t := fun hmem => hi (List.mem_cons_of_mem _ hmem)
          have hi4 : i ∉ (evictStep cfg st oldId).lru := by rw [s1]; exact hint
          exact (iI i hi4).trans (s5 i hine)
        · intro i
          exact ⟨(iJ i).1.trans (s6 i).1, (iJ i).2.1.trans (s6 i).2.1,
            (iJ i).2.2.1.trans (s6 i).2.2.1, (iJ i).2.2.2.trans (s6 i).2.2.2⟩
        · intro id hid
          rcases List.mem_cons.mp hid with rfl | hid'
          · have hnotlru4 : id ∉ (evictStep cfg st id).lru := by rw [s1]; exact hnodt
            refine ⟨?_, ?_, ?_, ?_, ?_⟩
            · intro hmem
              apply hnodt
              rw [← s1]
              rw [iE]
              exact List.mem_append_right _ hmem
            · intro hmem
              have := iG hmem
              rw [s7] at this
              exact ((pairKeyDistinct_nodup st.heap st.table hwtN).mem_erase_iff.mp
                this).1 rfl
            · intro hmem
              exact s9 (iH hmem)
            · exact ((iJ id).1).trans s12
            · have hpr := iI id hnotlru4
              have : heapGetD (EvictFromLRUAux cfg charge (evictStep cfg st id) n).1.heap id =
                  heapGetD (evictStep cfg st id).heap id := by
                simp [heapGetD, hpr]
              rw [this]
              exact s11
          · exact iK id hid'
        · intro hlen
          have hlent : (evictStep cfg st oldId).lru.length ≤ n := by
            rw [s1]
            simpa using hlen
          rcases iL hlent with h | h
          · left
            rw [← s2]
            exact h
          · right
            exact h
    · have hred : EvictFromLRUAux cfg charge st (n + 1) = (st, []) := by
        simp only [EvictFromLRUAux]
        rw [if_neg hover]
      rw [hred]
      refine ⟨hwf, rfl, rfl, rfl, rfl, ?_, fun _ h => h, fun _ h => h,
        fun _ _ => rfl, fun _ => ⟨rfl, rfl, rfl, rfl⟩, ?_, ?_⟩
      · show st.usage = st.usage - chargeSumOf st.heap []
        simp [chargeSumOf]
      · intro id hid
        cases hid
      · intro _
        left
        exact Nat.le_of_not_lt hover

/-- Claim C4: after `EvictFromLRU(c)` either `usage + c ≤ capacity` or the
LRU is empty; the evicted entries are exactly an initial segment of the LRU
(so each was removed from the LRU and appended, in order, to the returned
list), each is out of the primary table and out of the auxiliary table
(in particular when its `in_auxiliary` flag was set), still allocated with
`in_cache` cleared, and the sum of their charges has been subtracted from
usage. -/
theorem C4_evict_spec (cfg : Config) (st : ShardState) (charge : Nat)
    (hwf : WF4 cfg st) :
    ((EvictFromLRU cfg st charge).1.usage + charge ≤
        (EvictFromLRU cfg st charge).1.capacity ∨
      (EvictFromLRU cfg st charge).1.lru = []) ∧
    st.lru = (EvictFromLRU cfg st charge).2 ++ (EvictFromLRU cfg st charge).1.lru ∧
    (EvictFromLRU cfg st charge).1.usage =
      st.usage - chargeSumOf st.heap (EvictFromLRU cfg st charge).2 ∧
    (∀ id ∈ (EvictFromLRU cfg st charge).2,
      id ∉ (EvictFromLRU cfg st charge).1.lru ∧
      id ∉ (EvictFromLRU cfg st charge).1.table ∧
      id ∉ (EvictFromLRU cfg st charge).1.cbht.chain ∧
      (heapGet (EvictFromLRU cfg st charge).1.heap id).isSome = true ∧
      (heapGetD (EvictFromLRU cfg st charge).1.heap id).inCache = false) := by
  obtain ⟨_, hcap, _, _, hdec, hus, _, _, _, _, hdel, hpost⟩ :=
    evictAux_spec cfg charge st.lru.length st hwf
  refine ⟨?_, hdec, hus, hdel⟩
  rcases hpost (le_refl _) with h | h
  · left
    show (EvictFromLRUAux cfg charge st st.lru.length).1.usage + charge ≤ _
    rw [show (EvictFromLRU cfg st charge).1.capacity = st.capacity from hcap]
    exact h
  · right
    exact h

/-- Claim C4 witness: a shard at usage 60 with capacity 10 evicts both its
LRU entries (one of them in-auxiliary), ending under capacity with both
entries out of the primary table. -/
theorem C4_witness :
    WF4 cfgC4 stC4w ∧
    ((EvictFromLRU cfgC4 stC4w 0).1.usage + 0 ≤
        (EvictFromLRU cfgC4 stC4w 0).1.capacity ∨
      (EvictFromLRU cfgC4 stC4w 0).1.lru = []) ∧
    (∀ id ∈ (EvictFromLRU cfgC4 stC4w 0).2, id ∉ (EvictFromLRU cfgC4 stC4w 0).1.table) := by
  have hwf : WF4 cfgC4 stC4w := by
    unfold WF4 pairKeyDistinct
    decide
  have h := C4_evict_spec cfgC4 stC4w 0 hwf
  exact ⟨hwf, h.1, fun id hid => (h.2.2.2 id hid).2.1⟩

theorem heapFieldsPres_refl (h : Heap) : heapFieldsPres h h :=
  fun _ => ⟨rfl, rfl, rfl, rfl, rfl, rfl⟩

theorem heapFieldsPres_trans (h h' h'' : Heap) (a : heapFieldsPres h h')
    (b : heapFieldsPres h' h'') : heapFieldsPres h h'' := by
  intro i
  obtain ⟨a1, a2, a3, a4, a5, a6⟩ := a i
  obtain ⟨b1, b2, b3, b4, b5, b6⟩ := b i
  exact ⟨b1.trans a1, b2.trans a2, b3.trans a3, b4.trans a4, b5.trans a5, b6.trans a6⟩

theorem heapFieldsPres_set (h : Heap) (i : EntryId) (e e₀ : LRUHandle)
    (hget : heapGet h i = some e₀) (hk : e.key = e₀.key) (hh : e.hash = e₀.hash)
    (hc : e.charge = e₀.charge) (hv : e.value = e₀.value)
    (hic : e.inCache = e₀.inCache) :
    heapFieldsPres h (heapSet h i e) := by
  intro j
  by_cases hj : j = i
  · subst hj
    have hs := heapGet_heapSet_self h j e
    refine ⟨?_, ?_, ?_, ?_, ?_, ?_⟩ <;>
      simp [hs, heapGetD, hget, hk, hh, hc, hv, hic]
  · have hs := heapGet_heapSet_ne h i j e hj
    refine ⟨by rw [hs], ?_, ?_, ?_, ?_, ?_⟩ <;> simp [heapGetD, hs]

theorem chainFind?_some (heap : Heap) (chain : List EntryId) (key hash : Nat)
    (id : EntryId) (hf : chainFind? heap chain key hash = some id) :
    ∃ e, heapGet heap id = some e ∧ e.hash = hash ∧ e.key = key := by
  have hp := List.find?_some hf
  cases hget : heapGet heap id with
  | none => rw [hget] at hp; cases hp
  | some e =>
    rw [hget] at hp
    simp only [Bool.and_eq_true, beq_iff_eq] at hp
    exact ⟨e, rfl, hp.1, hp.2⟩

theorem chainFind?_mem (heap : Heap) (chain : List EntryId) (key hash : Nat)
    (id : EntryId) (hf : chainFind? heap chain key hash = some id) : id ∈ chain :=
  List.mem_of_find?_eq_some hf

theorem CBHT_Remove_pres (cfg : Config) (c : CBHTSt) (heap : Heap) (key hash : Nat)
    (df : Bool) : heapFieldsPres heap (CBHT_Remove cfg c heap key hash df).2.2 := by
  cases hf : chainFind? heap c.chain key hash with
  | none =>
    simp only [CBHT_Remove, hf]
    exact heapFieldsPres_refl heap
  | some id =>
    obtain ⟨e0, hget, _, _⟩ := chainFind?_some heap c.chain key hash id hf
    have hD : heapGetD heap id = e0 := by simp [heapGetD, hget]
    simp only [CBHT_Remove, hf, hD]
    split
    · split
      · exact heapFieldsPres_refl heap
      · exact heapFieldsPres_set heap id _ e0 hget rfl rfl rfl rfl rfl
    · exact heapFieldsPres_refl heap

theorem CBHT_EvictFIFOAux_pres (cfg : Config) (mytid : Nat) :
    ∀ (fuel : Nat) (c : CBHTSt) (heap : Heap),
      heapFieldsPres heap (CBHT_EvictFIFOAux cfg mytid fuel c heap).2.2 := by
  intro fuel
  induction fuel with
  | zero => intro c heap; exact heapFieldsPres_refl heap
  | succ n ih =>
    intro c heap
    unfold CBHT_EvictFIFOAux
    cases hkl : c.hashkeylist with
    | nil => exact heapFieldsPres_refl heap
    | cons p rest =>
      obtain ⟨k, hs⟩ := p
      dsimp only
      rcases hL : CBHT_Lookup cfg { c with hashkeylist := rest } heap k hs mytid with
        ⟨res, c2⟩
      cases res with
      | none => exact ih c2 heap
      | some x =>
        dsimp only
        rcases hR : CBHT_Remove cfg c2 heap k hs true with ⟨res2, c3, h3⟩
        have hpresR : heapFieldsPres heap h3 := by
          have := CBHT_Remove_pres cfg c2 heap k hs true
          rw [hR] at this
          exact this
        cases res2 with
        | none =>
          exact heapFieldsPres_trans heap h3 _ hpresR (ih _ h3)
        | some r => exact hpresR

theorem CBHT_EvictFIFO_pres (cfg : Config) (c : CBHTSt) (heap : Heap) (mytid : Nat) :
    heapFieldsPres heap (CBHT_EvictFIFO cfg c heap mytid).2.2 :=
  CBHT_EvictFIFOAux_pres cfg mytid (auxCap cfg) c heap

theorem CBHT_InsertCore_pres (cfg : Config) (c0 : CBHTSt) (heap0 : Heap)
    (hId : EntryId) (hsome : (heapGet heap0 hId).isSome = true) :
    heapFieldsPres heap0 (CBHT_InsertCore cfg c0 heap0 hId).2.2 := by
  obtain ⟨e0, hget0⟩ := Option.isSome_iff_exists.mp hsome
  have hD0 : heapGetD heap0 hId = e0 := by simp [heapGetD, hget0]
  unfold CBHT_InsertCore
  split
  · exact heapFieldsPres_refl heap0
  · dsimp only
    refine heapFieldsPres_trans heap0
      (heapSet heap0 hId { heapGetD heap0 hId with indca := true }) _ ?_ ?_
    · exact heapFieldsPres_set heap0 hId _ e0 hget0 (by rw [hD0]) (by rw [hD0])
        (by rw [hD0]) (by rw [hD0]) (by rw [hD0])
    · refine heapFieldsPres_set _ hId _ { heapGetD heap0 hId with indca := true }
        (heapGet_heapSet_self _ _ _) ?_ ?_ ?_ ?_ ?_ <;>
        simp [heapGetD, heapGet_heapSet_self]

theorem CBHT_Insert_pres (cfg : Config) (c : CBHTSt) (heap : Heap) (hId : EntryId)
    (mytid : Nat) (hsome : (heapGet heap hId).isSome = true) :
    heapFieldsPres heap (CBHT_Insert cfg c heap hId mytid).2.2 := by
  unfold CBHT_Insert
  dsimp only
  split
  · have hpres0 := CBHT_EvictFIFO_pres cfg c heap mytid
    refine heapFieldsPres_trans _ _ _ hpres0 ?_
    exact CBHT_InsertCore_pres cfg _ _ hId (((hpres0 hId).1).trans hsome)
  · exact CBHT_InsertCore_pres cfg c heap hId hsome

theorem heapGetD_heapSet_self (h : Heap) (i : EntryId) (e : LRUHandle) :
    heapGetD (heapSet h i e) i = e := by
  simp [heapGetD, heapGet_heapSet_self]

theorem heapGet_heapErase_self (h : Heap) (i : EntryId) :
    heapGet (heapErase h i) i = none := by
  simp [heapGet, heapErase]

theorem chainFind?_congr (h h' : Heap) (l : List EntryId) (key hash : Nat)
    (hp : ∀ i, (heapGet h' i).isSome = (heapGet h i).isSome ∧
      (heapGetD h' i).key = (heapGetD h i).key ∧
      (heapGetD h' i).hash = (heapGetD h i).hash) :
    chainFind? h' l key hash = chainFind? h l key hash := by
  induction l with
  | nil => rfl
  | cons a t ih =>
    obtain ⟨hs, hk, hh⟩ := hp a
    have hpred : (match heapGet h' a with
        | some e => e.hash == hash && e.key == key
        | none => false) =
        (match heapGet h a with
        | some e => e.hash == hash && e.key == key
        | none => false) := by
      cases hga : heapGet h a with
      | none =>
        cases hga' : heapGet h' a with
        | none => rfl
        | some e' => rw [hga, hga'] at hs; cases hs
      | some e =>
        cases hga' : heapGet h' a with
        | none => rw [hga, hga'] at hs; cases hs
        | some e' =>
          have hk' : e'.key = e.key := by simpa [heapGetD, hga, hga'] using hk
          have hh' : e'.hash = e.hash := by simpa [heapGetD, hga, hga'] using hh
          show (e'.hash == hash && e'.key == key) = (e.hash == hash && e.key == key)
          rw [hk', hh']
    unfold chainFind?
    rw [List.find?_cons, List.find?_cons]
    rw [hpred]
    cases hb : (match heapGet h a with
        | some e => e.hash == hash && e.key == key
        | none => false) with
    | true => rfl
    | false => exact ih

theorem MaintainPoolSizeAux_spec :
    ∀ (fuel : Nat) (st : ShardState),
      (∀ j ∈ st.lru, (heapGet st.heap j).isSome = true) →
      (MaintainPoolSizeAux st fuel).lru = st.lru ∧
      (MaintainPoolSizeAux st fuel).table = st.table ∧
      (MaintainPoolSizeAux st fuel).usage = st.usage ∧
      heapFieldsPres st.heap (MaintainPoolSizeAux st fuel).heap := by
  intro fuel
  induction fuel with
  | zero => intro st _; exact ⟨rfl, rfl, rfl, heapFieldsPres_refl _⟩
  | succ n ih =>
    intro st hlive
    unfold MaintainPoolSizeAux
    split
    · cases hx : st.lru[st.lowPriLen]? with
      | none => exact ⟨rfl, rfl, rfl, heapFieldsPres_refl _⟩
      | some id =>
        dsimp only
        have hmem : id ∈ st.lru := List.mem_iff_getElem?.mpr ⟨st.lowPriLen, hx⟩
        obtain ⟨e0, hget⟩ := Option.isSome_iff_exists.mp (hlive id hmem)
        have hD : heapGetD st.heap id = e0 := by simp [heapGetD, hget]
        have hpres1 : heapFieldsPres st.heap
            (heapSet st.heap id { heapGetD st.heap id with inHighPriPool := false }) := by
          refine heapFieldsPres_set st.heap id _ e0 hget ?_ ?_ ?_ ?_ ?_ <;> rw [hD]
        have hlive' : ∀ j ∈ st.lru, (heapGet (heapSet st.heap id
            { heapGetD st.heap id with inHighPriPool := false }) j).isSome = true := by
          intro j hj
          rw [(hpres1 j).1]
          exact hlive j hj
        obtain ⟨h1, h2, h3, h4⟩ := ih
          { st with
            lowPriLen := st.lowPriLen + 1
            heap := heapSet st.heap id { heapGetD st.heap id with inHighPriPool := false }
            highPriPoolUsage := st.highPriPoolUsage - calcTotalCharge (heapGetD st.heap id) }
          hlive'
        exact ⟨h1, h2, h3, heapFieldsPres_trans _ _ _ hpres1 h4⟩
    · exact ⟨rfl, rfl, rfl, heapFieldsPres_refl _⟩

theorem MaintainPoolSize_spec (st : ShardState)
    (hlive : ∀ j ∈ st.lru, (heapGet st.heap j).isSome = true) :
    (MaintainPoolSize st).lru = st.lru ∧
    (MaintainPoolSize st).table = st.table ∧
    (MaintainPoolSize st).usage = st.usage ∧
    heapFieldsPres st.heap (MaintainPoolSize st).heap :=
  MaintainPoolSizeAux_spec _ st hlive

theorem LRU_Insert_spec (st : ShardState) (id : EntryId)
    (hlive : ∀ j ∈ st.lru, (heapGet st.heap j).isSome = true)
    (hid : (heapGet st.heap id).isSome = true) :
    (LRU_Insert st id).table = st.table ∧
    (LRU_Insert st id).usage = st.usage ∧
    heapFieldsPres st.heap (LRU_Insert st id).heap ∧
    (∀ j, j ≠ id → (j ∈ (LRU_Insert st id).lru ↔ j ∈ st.lru)) := by
  obtain ⟨e0, hget⟩ := Option.isSome_iff_exists.mp hid
  have hD : heapGetD st.heap id = e0 := by simp [heapGetD, hget]
  unfold LRU_Insert
  split
  · exact ⟨rfl, rfl, heapFieldsPres_refl _, fun j _ => Iff.rfl⟩
  · dsimp only
    split
    · have hpres1 : heapFieldsPres st.heap
          (heapSet st.heap id { heapGetD st.heap id with inHighPriPool := true }) := by
        refine heapFieldsPres_set st.heap id _ e0 hget ?_ ?_ ?_ ?_ ?_ <;> rw [hD]
      have hlive1 : ∀ j ∈ st.lru ++ [id],
          (heapGet (heapSet st.heap id
            { heapGetD st.heap id with inHighPriPool := true }) j).isSome = true := by
        intro j hj
        rw [(hpres1 j).1]
        rcases List.mem_append.mp hj with hj | hj
        · exact hlive j hj
        · rw [List.mem_singleton.mp hj]
          exact hid
      obtain ⟨m1, m2, m3, m4⟩ := MaintainPoolSize_spec
        { st with
          lru := st.lru ++ [id]
          heap := heapSet st.heap id { heapGetD st.heap id with inHighPriPool := true }
          highPriPoolUsage := st.highPriPoolUsage + calcTotalCharge (heapGetD st.heap id) }
        hlive1
      refine ⟨m2, m3, heapFieldsPres_trans _ _ _ hpres1 m4, ?_⟩
      intro j hj
      show j ∈ (MaintainPoolSize _).lru ↔ j ∈ st.lru
      rw [m1]
      show j ∈ st.lru ++ [id] ↔ j ∈ st.lru
      simp [List.mem_append, hj]
    · refine ⟨rfl, rfl, ?_, ?_⟩
      · refine heapFieldsPres_set st.heap id _ e0 hget ?_ ?_ ?_ ?_ ?_ <;> rw [hD]
      · intro j hj
        show j ∈ st.lru.take st.lowPriLen ++ id :: st.lru.drop st.lowPriLen ↔ j ∈ st.lru
        simp only [List.mem_append, List.mem_cons, hj, false_or]
        rw [← List.mem_append, List.take_append_drop]

theorem insertFinish_status (s : RStatus) (st : ShardState) (eId : EntryId)
    (frees : List EntryId) (hrq : Bool) (hi : Option EntryId) :
    (insertFinish s st eId frees hrq hi).status = s := by
  unfold insertFinish
  split_ifs <;> rfl

theorem insertFinish_spec (s : RStatus) (st : ShardState) (eId : EntryId)
    (frees : List EntryId) (hrq : Bool) (hi : Option EntryId)
    (hid : (heapGet st.heap eId).isSome = true)
    (hlive : ∀ j ∈ st.lru, (heapGet st.heap j).isSome = true) :
    (insertFinish s st eId frees hrq hi).lastRefList = frees ∧
    (insertFinish s st eId frees hrq hi).st.table = st.table ∧
    (insertFinish s st eId frees hrq hi).st.usage = st.usage ∧
    heapFieldsPres st.heap (insertFinish s st eId frees hrq hi).st.heap ∧
    (∀ j, j ≠ eId → (j ∈ (insertFinish s st eId frees hrq hi).st.lru ↔ j ∈ st.lru)) := by
  obtain ⟨e0, hget⟩ := Option.isSome_iff_exists.mp hid
  have hD : heapGetD st.heap eId = e0 := by simp [heapGetD, hget]
  unfold insertFinish
  split
  · dsimp only
    split
    · obtain ⟨t1, t2, t3, t4⟩ := LRU_Insert_spec st eId hlive hid
      exact ⟨rfl, t1, t2, t3, fun j hj => t4 j hj⟩
    · exact ⟨rfl, rfl, rfl, heapFieldsPres_refl _, fun j _ => Iff.rfl⟩
  · dsimp only
    split
    · refine ⟨rfl, rfl, rfl, ?_, fun j _ => Iff.rfl⟩
      refine heapFieldsPres_set st.heap eId _ e0 hget ?_ ?_ ?_ ?_ ?_ <;> rw [hD]
    · exact ⟨rfl, rfl, rfl, heapFieldsPres_refl _, fun j _ => Iff.rfl⟩

/-- Claim C5: in `LRUCacheShard::Insert`, when after eviction
`usage + total_charge > capacity` and (`strict_capacity_limit` or no out
handle was requested), the entry is not retained: with an out handle the
raw entry memory is freed (`free_handle_on_fail` is true on this path) and
the status is `Incomplete`; without one the entry is pushed onto the
deferred-free list with `in_cache` cleared and the status is `OK`; and
`Incomplete` is returned in no other situation. -/
theorem C5_insert_capacity (cfg : Config) (st : ShardState) (key hash : Nat)
    (value : Option Nat) (charge : Nat) (sc hp hr : Bool) (gs gst : Int) (mytid : Nat)
    (ev : ShardState × List EntryId) (out : InsertOut)
    (hev : ev = EvictFromLRU cfg
      { st with
        heap := heapSet st.heap st.nextId (mkInsertHandle key hash value charge sc hp gs gst)
        nextId := st.nextId + 1 } charge)
    (hout : out = LRUCacheShard_Insert cfg st key hash value charge sc hp hr gs gst mytid) :
    (out.status = RStatus.incomplete ↔
      ((ev.1.capacity < ev.1.usage + charge ∧
        (ev.1.strictCapacityLimit = true ∨ hr = false)) ∧ hr = true)) ∧
    (ev.1.capacity < ev.1.usage + charge → ev.1.strictCapacityLimit = true → hr = true →
      out.status = RStatus.incomplete ∧ out.newEntryDeallocated = true ∧
      heapGet out.st.heap st.nextId = none ∧ out.handleOut = none ∧
      out.lastRefList = ev.2) ∧
    (ev.1.capacity < ev.1.usage + charge → hr = false →
      out.status = RStatus.ok ∧ out.lastRefList = ev.2 ++ [st.nextId] ∧
      (heapGetD out.st.heap st.nextId).inCache = false ∧
      out.newEntryDeallocated = false) := by
  subst hout hev
  have hrw : LRUCacheShard_Insert cfg st key hash value charge sc hp hr gs gst mytid =
      InsertItem cfg
        { st with
          heap := heapSet st.heap st.nextId (mkInsertHandle key hash value charge sc hp gs gst)
          nextId := st.nextId + 1 } st.nextId hr true none mytid := rfl
  rw [hrw]
  have htc : calcTotalCharge (heapGetD
      (heapSet st.heap st.nextId (mkInsertHandle key hash value charge sc hp gs gst))
      st.nextId) = charge := by
    rw [heapGetD_heapSet_self]
    rfl
  simp only [InsertItem]
  rw [htc]
  cases hr with
  | false =>
    by_cases hcap : (EvictFromLRU cfg
        { st with
          heap := heapSet st.heap st.nextId (mkInsertHandle key hash value charge sc hp gs gst)
          nextId := st.nextId + 1 } charge).1.usage + charge >
        (EvictFromLRU cfg
        { st with
          heap := heapSet st.heap st.nextId (mkInsertHandle key hash value charge sc hp gs gst)
          nextId := st.nextId + 1 } charge).1.capacity
    · rw [if_pos ⟨hcap, Or.inr (by decide)⟩, if_pos (by decide)]
      refine ⟨?_, ?_, ?_⟩
      · exact iff_of_false (fun h => nomatch h) (fun hq => nomatch hq.2)
      · intro _ _ h3
        cases h3
      · intro _ _
        refine ⟨rfl, rfl, ?_, rfl⟩
        rw [heapGetD_heapSet_self]
    · rw [if_neg (fun hq => hcap hq.1)]
      refine ⟨?_, ?_, ?_⟩
      · refine iff_of_false ?_ (fun hq => hcap hq.1.1)
        cases hti : (table_Insert (EvictFromLRU cfg
            { st with
              heap := heapSet st.heap st.nextId (mkInsertHandle key hash value charge sc hp gs gst)
              nextId := st.nextId + 1 } charge).1.heap (EvictFromLRU cfg
            { st with
              heap := heapSet st.heap st.nextId (mkInsertHandle key hash value charge sc hp gs gst)
              nextId := st.nextId + 1 } charge).1.table (EvictFromLRU cfg
            { st with
              heap := heapSet st.heap st.nextId (mkInsertHandle key hash value charge sc hp gs gst)
              nextId := st.nextId + 1 } charge).1.tableElems st.nextId).1 with
        | none => simp [insertFinish_status]
        | some oldId => simp [insertFinish_status]
      · intro h1 _ _
        exact absurd h1 hcap
      · intro h1 _
        exact absurd h1 hcap
  | true =>
    by_cases hcap : (EvictFromLRU cfg
        { st with
          heap := heapSet st.heap st.nextId (mkInsertHandle key hash value charge sc hp gs gst)
          nextId := st.nextId + 1 } charge).1.usage + charge >
        (EvictFromLRU cfg
        { st with
          heap := heapSet st.heap st.nextId (mkInsertHandle key hash value charge sc hp gs gst)
          nextId := st.nextId + 1 } charge).1.capacity
    · by_cases hstrict : (EvictFromLRU cfg
          { st with
            heap := heapSet st.heap st.nextId (mkInsertHandle key hash value charge sc hp gs gst)
            nextId := st.nextId + 1 } charge).1.strictCapacityLimit = true
      · rw [if_pos ⟨hcap, Or.inl hstrict⟩, if_neg (by decide), if_pos (by decide)]
        refine ⟨?_, ?_, ?_⟩
        · exact iff_of_true rfl ⟨⟨hcap, Or.inl hstrict⟩, rfl⟩
        · intro _ _ _
          exact ⟨rfl, rfl, heapGet_heapErase_self _ _, rfl, rfl⟩
        · intro _ h2
          cases h2
      · rw [if_neg (fun hq => hq.2.elim hstrict (fun h => h rfl))]
        refine ⟨?_, ?_, ?_⟩
        · refine iff_of_false ?_ (fun hq => hq.1.2.elim hstrict (fun h => by cases h))
          cases hti : (table_Insert (EvictFromLRU cfg
              { st with
                heap := heapSet st.heap st.nextId (mkInsertHandle key hash value charge sc hp gs gst)
                nextId := st.nextId + 1 } charge).1.heap (EvictFromLRU cfg
              { st with
                heap := heapSet st.heap st.nextId (mkInsertHandle key hash value charge sc hp gs gst)
                nextId := st.nextId + 1 } charge).1.table (EvictFromLRU cfg
              { st with
                heap := heapSet st.heap st.nextId (mkInsertHandle key hash value charge sc hp gs gst)
                nextId := st.nextId + 1 } charge).1.tableElems st.nextId).1 with
          | none => simp [insertFinish_status]
          | some oldId => simp [insertFinish_status]
        · intro _ h2 _
          exact absurd h2 hstrict
        · intro _ h2
          cases h2
    · rw [if_neg (fun hq => hcap hq.1)]
      refine ⟨?_, ?_, ?_⟩
      · refine iff_of_false ?_ (fun hq => hcap hq.1.1)
        cases hti : (table_Insert (EvictFromLRU cfg
            { st with
              heap := heapSet st.heap st.nextId (mkInsertHandle key hash value charge sc hp gs gst)
              nextId := st.nextId + 1 } charge).1.heap (EvictFromLRU cfg
            { st with
              heap := heapSet st.heap st.nextId (mkInsertHandle key hash value charge sc hp gs gst)
              nextId := st.nextId + 1 } charge).1.table (EvictFromLRU cfg
            { st with
              heap := heapSet st.heap st.nextId (mkInsertHandle key hash value charge sc hp gs gst)
              nextId := st.nextId + 1 } charge).1.tableElems st.nextId).1 with
        | none => simp [insertFinish_status]
        | some oldId => simp [insertFinish_status]
      · intro h1 _ _
        exact absurd h1 hcap
      · intro h1 _
        exact absurd h1 hcap

/-- Claim C5 witness: inserting charge 99 into an empty strict shard of
capacity 10 with an out handle yields `Incomplete` with the entry memory
deallocated; without an out handle it yields `OK` with the entry queued on
the deferred-free list. -/
theorem C5_witness :
    ((LRUCacheShard_Insert cfg0 (emptyShard 10 true) 1 2 none 99
        false false true 0 0 0).status = RStatus.incomplete ∧
      (LRUCacheShard_Insert cfg0 (emptyShard 10 true) 1 2 none 99
        false false true 0 0 0).newEntryDeallocated = true) ∧
    ((LRUCacheShard_Insert cfg0 (emptyShard 10 true) 1 2 none 99
        false false false 0 0 0).status = RStatus.ok ∧
      (LRUCacheShard_Insert cfg0 (emptyShard 10 true) 1 2 none 99
        false false false 0 0 0).lastRefList = [0]) := by
  have h1 := C5_insert_capacity cfg0 (emptyShard 10 true) 1 2 none 99 false false true 0 0 0
    _ _ rfl rfl
  have h2 := C5_insert_capacity cfg0 (emptyShard 10 true) 1 2 none 99 false false false 0 0 0
    _ _ rfl rfl
  obtain ⟨s1, d1, -, -, -⟩ := h1.2.1 (by decide) (by decide) rfl
  obtain ⟨s2, l2, -, -⟩ := h2.2.2 (by decide) rfl
  exact ⟨⟨s1, d1⟩, ⟨s2, l2⟩⟩

/-- Claim C6 counterexample: the capacity check precedes the table insert,
so a second Insert of an existing key can return `OK` (entry deferred-freed,
nothing overwritten: oversized overwrite without an out handle) or
`Incomplete` (strict limit with an out handle while the old entry is pinned)
instead of `OkOverwritten`. -/
theorem C6_counterexample :
    table_Lookup iC6a.st.heap iC6a.st.table 5 50 = some 0 ∧
    iC6aRe.status = RStatus.ok ∧
    iC6aRe.status ≠ RStatus.okOverwritten ∧
    table_Lookup iC6b1.st.heap iC6b1.st.table 5 50 = some 0 ∧
    iC6b2.status = RStatus.incomplete := by
  refine ⟨?_, ?_, ?_, ?_, ?_⟩ <;> decide

/-- The tail of `InsertItem`'s overwrite branch: the optional auxiliary
re-insert of the new entry followed by `insertFinish`, over an arbitrary
intermediate shard whose table starts with the new entry and whose previous
entry already has `in_cache` cleared. -/
theorem overwrite_tail_spec (cfg : Config) (stP : ShardState) (eId oldId : EntryId)
    (rest frees : List EntryId) (hr : Bool) (hi : Option EntryId) (mytid : Nat)
    (e : LRUHandle)
    (hge : heapGet stP.heap eId = some e)
    (hic : (heapGetD stP.heap oldId).inCache = false)
    (hlive : ∀ j ∈ stP.lru, (heapGet stP.heap j).isSome = true)
    (htab : stP.table = eId :: rest) :
    (insertFinish RStatus.okOverwritten
      (if cfg.CBHTturnoff ≠ 0 ∧ (heapGetD stP.heap oldId).indca = true then
        { stP with
          cbht := (CBHT_Insert cfg stP.cbht stP.heap eId mytid).2.1
          heap := (CBHT_Insert cfg stP.cbht stP.heap eId mytid).2.2 }
      else stP) eId frees hr hi).status = RStatus.okOverwritten ∧
    (insertFinish RStatus.okOverwritten
      (if cfg.CBHTturnoff ≠ 0 ∧ (heapGetD stP.heap oldId).indca = true then
        { stP with
          cbht := (CBHT_Insert cfg stP.cbht stP.heap eId mytid).2.1
          heap := (CBHT_Insert cfg stP.cbht stP.heap eId mytid).2.2 }
      else stP) eId frees hr hi).lastRefList = frees ∧
    (heapGetD (insertFinish RStatus.okOverwritten
      (if cfg.CBHTturnoff ≠ 0 ∧ (heapGetD stP.heap oldId).indca = true then
        { stP with
          cbht := (CBHT_Insert cfg stP.cbht stP.heap eId mytid).2.1
          heap := (CBHT_Insert cfg stP.cbht stP.heap eId mytid).2.2 }
      else stP) eId frees hr hi).st.heap oldId).inCache = false ∧
    table_Lookup (insertFinish RStatus.okOverwritten
      (if cfg.CBHTturnoff ≠ 0 ∧ (heapGetD stP.heap oldId).indca = true then
        { stP with
          cbht := (CBHT_Insert cfg stP.cbht stP.heap eId mytid).2.1
          heap := (CBHT_Insert cfg stP.cbht stP.heap eId mytid).2.2 }
      else stP) eId frees hr hi).st.heap (insertFinish RStatus.okOverwritten
      (if cfg.CBHTturnoff ≠ 0 ∧ (heapGetD stP.heap oldId).indca = true then
        { stP with
          cbht := (CBHT_Insert cfg stP.cbht stP.heap eId mytid).2.1
          heap := (CBHT_Insert cfg stP.cbht stP.heap eId mytid).2.2 }
      else stP) eId frees hr hi).st.table e.key e.hash = some eId ∧
    (heapGetD (insertFinish RStatus.okOverwritten
      (if cfg.CBHTturnoff ≠ 0 ∧ (heapGetD stP.heap oldId).indca = true then
        { stP with
          cbht := (CBHT_Insert cfg stP.cbht stP.heap eId mytid).2.1
          heap := (CBHT_Insert cfg stP.cbht stP.heap eId mytid).2.2 }
      else stP) eId frees hr hi).st.heap eId).value = e.value ∧
    (insertFinish RStatus.okOverwritten
      (if cfg.CBHTturnoff ≠ 0 ∧ (heapGetD stP.heap oldId).indca = true then
        { stP with
          cbht := (CBHT_Insert cfg stP.cbht stP.heap eId mytid).2.1
          heap := (CBHT_Insert cfg stP.cbht stP.heap eId mytid).2.2 }
      else stP) eId frees hr hi).st.usage = stP.usage ∧
    (∀ j, j ≠ eId → (j ∈ (insertFinish RStatus.okOverwritten
      (if cfg.CBHTturnoff ≠ 0 ∧ (heapGetD stP.heap oldId).indca = true then
        { stP with
          cbht := (CBHT_Insert cfg stP.cbht stP.heap eId mytid).2.1
          heap := (CBHT_Insert cfg stP.cbht stP.heap eId mytid).2.2 }
      else stP) eId frees hr hi).st.lru ↔ j ∈ stP.lru)) := by
  set st5 := if cfg.CBHTturnoff ≠ 0 ∧ (heapGetD stP.heap oldId).indca = true then
      { stP with
        cbht := (CBHT_Insert cfg stP.cbht stP.heap eId mytid).2.1
        heap := (CBHT_Insert cfg stP.cbht stP.heap eId mytid).2.2 }
    else stP with hst5
  have h5 : st5.table = stP.table ∧ st5.usage = stP.usage ∧ st5.lru = stP.lru ∧
      heapFieldsPres stP.heap st5.heap := by
    rw [hst5]
    split
    · exact ⟨rfl, rfl, rfl, CBHT_Insert_pres cfg _ _ _ _ (by rw [hge]; rfl)⟩
    · exact ⟨rfl, rfl, rfl, heapFieldsPres_refl _⟩
  obtain ⟨h5tab, h5usage, h5lru, h5pres⟩ := h5
  have hid5 : (heapGet st5.heap eId).isSome = true := by
    rw [(h5pres eId).1, hge]
    rfl
  have hlive5 : ∀ j ∈ st5.lru, (heapGet st5.heap j).isSome = true := by
    intro j hj
    rw [h5lru] at hj
    rw [(h5pres j).1]
    exact hlive j hj
  obtain ⟨ftl, ftab, fusage, fpres, fmem⟩ :=
    insertFinish_spec .okOverwritten st5 eId frees hr hi hid5 hlive5
  have hDP : heapGetD stP.heap eId = e := by simp [heapGetD, hge]
  refine ⟨insertFinish_status _ _ _ _ _ _, ftl, ?_, ?_, ?_, fusage.trans h5usage, ?_⟩
  · rw [(fpres oldId).2.2.2.2.2, (h5pres oldId).2.2.2.2.2]
    exact hic
  · rw [ftab, h5tab, htab]
    have hsomeF : (heapGet (insertFinish RStatus.okOverwritten st5 eId
        frees hr hi).st.heap eId).isSome = true := (fpres eId).1.trans hid5
    obtain ⟨eF, hgF⟩ := Option.isSome_iff_exists.mp hsomeF
    have hDF : heapGetD (insertFinish RStatus.okOverwritten st5 eId
        frees hr hi).st.heap eId = eF := by simp [heapGetD, hgF]
    have hkF : eF.key = e.key := by
      rw [← hDF, (fpres eId).2.1, (h5pres eId).2.1, hDP]
    have hhF : eF.hash = e.hash := by
      rw [← hDF, (fpres eId).2.2.1, (h5pres eId).2.2.1, hDP]
    show chainFind? _ (eId :: rest) e.key e.hash = some eId
    unfold chainFind?
    refine List.find?_cons_of_pos _ ?_
    rw [hgF]
    simp [hkF, hhF]
  · rw [(fpres eId).2.2.2.2.1, (h5pres eId).2.2.2.2.1, hDP]
  · intro j hj
    rw [fmem j hj, h5lru]

/-- Claim C6 amended: when `InsertItem` passes the capacity check and the
primary table still holds an entry for the key after eviction, the call
returns `OkOverwritten`, clears the previous entry's `in_cache`, leaves the
new entry as the table hit for the key with its value intact, and — when the
previous entry had no external references — removes it from the LRU,
subtracts its charge from usage and queues its deleter exactly once. -/
theorem C6_insert_overwrite_amended (cfg : Config) (st : ShardState) (eId : EntryId)
    (e : LRUHandle) (hr fo : Bool) (hi : Option EntryId) (mytid : Nat)
    (ev : ShardState × List EntryId) (oldId : EntryId) (out : InsertOut)
    (hwf : WF4 cfg st)
    (he : heapGet st.heap eId = some e)
    (helru : eId ∉ st.lru)
    (hetab : eId ∉ st.table)
    (hev : ev = EvictFromLRU cfg st (calcTotalCharge e))
    (hold : table_Lookup ev.1.heap ev.1.table e.key e.hash = some oldId)
    (hacc : ¬(ev.1.capacity < ev.1.usage + calcTotalCharge e ∧
      (ev.1.strictCapacityLimit = true ∨ hr = false)))
    (hout : out = InsertItem cfg st eId hr fo hi mytid) :
    out.status = RStatus.okOverwritten ∧
    (heapGetD out.st.heap oldId).inCache = false ∧
    table_Lookup out.st.heap out.st.table e.key e.hash = some eId ∧
    (heapGetD out.st.heap eId).value = e.value ∧
    ((heapGetD ev.1.heap oldId).refs = 0 →
      oldId ∉ out.st.lru ∧
      out.lastRefList.count oldId = 1 ∧
      out.st.usage =
        ev.1.usage + calcTotalCharge e - calcTotalCharge (heapGetD ev.1.heap oldId)) := by
  subst hout hev
  have hD : heapGetD st.heap eId = e := by simp [heapGetD, he]
  obtain ⟨hwf', -, -, -, -, -, htabsub, -, hoff, -, hevict, -⟩ :=
    evictAux_spec cfg (calcTotalCharge e) st.lru.length st hwf
  simp only [InsertItem]
  rw [hD]
  simp only [EvictFromLRU] at hold hacc ⊢
  set E := EvictFromLRUAux cfg (calcTotalCharge e) st st.lru.length with hEd
  have hE1 : heapGet E.1.heap eId = some e := by
    rw [hoff eId helru]
    exact he
  have hDE : heapGetD E.1.heap eId = e := by simp [heapGetD, hE1]
  have hold' : chainFind? E.1.heap E.1.table e.key e.hash = some oldId := hold
  obtain ⟨eold, hgetold, hoh, hok⟩ := chainFind?_some E.1.heap E.1.table e.key e.hash oldId hold'
  have hDold : heapGetD E.1.heap oldId = eold := by simp [heapGetD, hgetold]
  have holdmem : oldId ∈ E.1.table := chainFind?_mem E.1.heap E.1.table e.key e.hash oldId hold'
  have hne : eId ≠ oldId := by
    intro h
    subst h
    exact hetab (htabsub holdmem)
  have holdnotev : oldId ∉ E.2 := fun hmem => (hevict oldId hmem).2.1 holdmem
  have hnodupE : E.1.lru.Nodup := hwf'.2.2.1
  have hliveE : ∀ j ∈ E.1.lru, (heapGet E.1.heap j).isSome = true := hwf'.2.2.2.1
  have hacc' : ¬(E.1.usage + calcTotalCharge e > E.1.capacity ∧
      (E.1.strictCapacityLimit = true ∨ ¬hr = true)) := by
    intro hq
    exact hacc ⟨hq.1, hq.2.imp id (fun h => Bool.eq_false_iff.mpr h)⟩
  rw [if_neg hacc']
  have hti1 : (table_Insert E.1.heap E.1.table E.1.tableElems eId).1 = some oldId := by
    simp only [table_Insert]
    rw [hDE, hold']
  have hti21 : (table_Insert E.1.heap E.1.table E.1.tableElems eId).2.1 =
      eId :: E.1.table.erase oldId := by
    simp only [table_Insert]
    rw [hDE, hold']
  cases hti : (table_Insert E.1.heap E.1.table E.1.tableElems eId).1 with
  | none => exact absurd (hti1.symm.trans hti) (Option.some_ne_none _)
  | some o =>
    obtain rfl : oldId = o := Option.some.inj (hti1.symm.trans hti)
    dsimp only
    rw [hDold]
    set e3 : LRUHandle := { eold with inCache := false } with he3
    set heap3 : Heap := heapSet E.1.heap oldId e3 with hh3
    have hlive3 : ∀ j ∈ E.1.lru, (heapGet heap3 j).isSome = true := by
      intro j hj
      rw [hh3]
      by_cases hjo : j = oldId
      · subst hjo
        rw [heapGet_heapSet_self]
        rfl
      · rw [heapGet_heapSet_ne _ _ _ _ hjo]
        exact hliveE j hj
    have hge3 : heapGet heap3 eId = some e := by
      rw [hh3, heapGet_heapSet_ne _ _ _ _ hne]
      exact hE1
    have hic3 : (heapGetD heap3 oldId).inCache = false := by
      rw [hh3, heapGetD_heapSet_self, he3]
    set stL : ShardState := { E.1 with
      heap := heap3
      table := (table_Insert E.1.heap E.1.table E.1.tableElems eId).2.1
      tableElems := (table_Insert E.1.heap E.1.table E.1.tableElems eId).2.2
      usage := E.1.usage + calcTotalCharge e } with hstL
    by_cases hrefs : eold.refs > 0
    · rw [if_neg (not_not_intro hrefs)]
      dsimp only
      obtain ⟨t1, t2, t3, t4, t5, t6, t7⟩ :=
        overwrite_tail_spec cfg stL eId oldId (E.1.table.erase oldId) (E.2 ++ []) hr hi
          mytid e hge3 hic3 hlive3 hti21
      exact ⟨t1, t3, t4, t5, fun h => absurd h (Nat.pos_iff_ne_zero.mp hrefs)⟩
    · rw [if_pos hrefs]
      dsimp only
      obtain ⟨lrheap, lrtable, -, -, lrusage, -, -, -, -⟩ := LRU_Remove_preserves stL oldId
      have hgeP : heapGet (LRU_Remove stL oldId).heap eId = some e := by
        rw [lrheap]
        exact hge3
      have hicP : (heapGetD (LRU_Remove stL oldId).heap oldId).inCache = false := by
        rw [lrheap]
        exact hic3
      have hsub : ∀ j, j ∈ (LRU_Remove stL oldId).lru → j ∈ E.1.lru := by
        intro j hj
        unfold LRU_Remove at hj
        by_cases hm : oldId ∈ stL.lru
        · rw [if_pos hm] at hj
          exact List.mem_of_mem_erase hj
        · rw [if_neg hm] at hj
          exact hj
      have holdnot4 : oldId ∉ (LRU_Remove stL oldId).lru := by
        unfold LRU_Remove
        by_cases hm : oldId ∈ stL.lru
        · rw [if_pos hm]
          intro hmem
          have hmem' : oldId ∈ E.1.lru.erase oldId := hmem
          exact ((List.Nodup.mem_erase_iff hnodupE).mp hmem').1 rfl
        · rw [if_neg hm]
          exact hm
      have hliveP : ∀ j ∈ (LRU_Remove stL oldId).lru,
          (heapGet (LRU_Remove stL oldId).heap j).isSome = true := by
        intro j hj
        rw [lrheap]
        exact hlive3 j (hsub j hj)
      have htabP : (LRU_Remove stL oldId).table = eId :: E.1.table.erase oldId :=
        lrtable.trans hti21
      obtain ⟨t1, t2, t3, t4, t5, t6, t7⟩ :=
        overwrite_tail_spec cfg
          { LRU_Remove stL oldId with
            usage := (LRU_Remove stL oldId).usage - calcTotalCharge eold }
          eId oldId (E.1.table.erase oldId) (E.2 ++ [oldId]) hr hi mytid e hgeP hicP hliveP htabP
      refine ⟨t1, t3, t4, t5, fun _ => ⟨?_, ?_, ?_⟩⟩
      · intro hmem
        exact holdnot4 ((t7 oldId (fun hx => hne hx.symm)).mp hmem)
      · have hcount : (E.2 ++ [oldId]).count oldId = 1 := by
          rw [List.count_append, List.count_eq_zero.mpr holdnotev]
          simp
        exact t2.symm ▸ hcount
      · have hu2 : ({ LRU_Remove stL oldId with
            usage := (LRU_Remove stL oldId).usage - calcTotalCharge eold } :
              ShardState).usage =
            E.1.usage + calcTotalCharge e - calcTotalCharge eold := by
          show (LRU_Remove stL oldId).usage - calcTotalCharge eold = _
          rw [lrusage]
        exact t6.trans hu2

/-- Claim C6 witness: overwriting key 5 (old value 1, charge 40, no refs)
with a new entry (value 2) returns `OkOverwritten`, clears the old entry's
`in_cache`, makes the new entry the table hit with its value, and queues the
old entry's deleter exactly once. -/
theorem C6_witness :
    (InsertItem cfg0 stC6w 1 false true none 0).status = RStatus.okOverwritten ∧
    (heapGetD (InsertItem cfg0 stC6w 1 false true none 0).st.heap 0).inCache = false ∧
    table_Lookup (InsertItem cfg0 stC6w 1 false true none 0).st.heap
      (InsertItem cfg0 stC6w 1 false true none 0).st.table 5 50 = some 1 ∧
    (heapGetD (InsertItem cfg0 stC6w 1 false true none 0).st.heap 1).value = some 2 ∧
    (InsertItem cfg0 stC6w 1 false true none 0).lastRefList.count 0 = 1 := by
  have h := C6_insert_overwrite_amended cfg0 stC6w 1 eC6w false true none 0
    (EvictFromLRU cfg0 stC6w (calcTotalCharge eC6w)) 0
    (InsertItem cfg0 stC6w 1 false true none 0)
    (by unfold WF4 pairKeyDistinct; decide) (by decide) (by decide) (by decide) rfl
    (by decide) (by decide) rfl
  obtain ⟨s1, s2, s3, s4, s5⟩ := h
  obtain ⟨-, c2, -⟩ := s5 (by decide)
  exact ⟨s1, s2, s3, s4, c2⟩

end BlockCacheOpt
